import Mathlib

/-!
Verification development for the gompdf box-layout and pagination engines.

The Go sources are shallowly embedded: `float64` geometry is modelled by `ℚ`
(exact rational arithmetic), Go pointer identity of `*html.Node` values by a
numeric node id carried in `NodeData`, and the mutable box tree by pure values
that are rebuilt by each transformation.  Every definition follows the
corresponding Go function statement by statement; deviations forced by the
functional setting (explicit iteration order for Go map ranges, explicit fuel
for unbounded `for` loops) are documented at the definition.
-/

attribute [local semireducible] Rat.add Rat.sub Rat.mul Rat.inv Rat.ofScientific

namespace GomPDF

/-! ### HTML node model (internal/parser/html) -/

/-- Model of `html.Attribute` (key/value pair). -/
structure HAttr where
  key : String
  val : String
deriving DecidableEq, Repr

/-- Model of `html.NodeType` (the constructors used by the engine). -/
inductive NType where
  | element
  | text
  | document
  | comment
  | doctype
deriving DecidableEq, Repr

/-- Per-node payload of `html.Node`: `nid` models the node's address
(`fmt.Sprintf("%p", n)`), `data` the tag or text, `attrs` the attributes. -/
structure NodeData where
  nid : Nat
  ntype : NType
  data : String
  attrs : List HAttr
deriving DecidableEq, Repr

/-- Model of `style.ComputedStyle` (`map[string]StyleProperty`): an
association list from property name to property value string. -/
abbrev ComputedStyle := List (String × String)

/-- Lookup in a `ComputedStyle`: models `st["k"]` returning the value and
the `ok` flag.  Returns `none` when the key is absent. -/
def styleGet (st : ComputedStyle) (k : String) : Option String :=
  (st.find? (fun p => p.1 == k)).map (fun p => p.2)

/-- Models `st["k"].Value`, the Go zero-value read: absent keys give `""`. -/
def styleVal (st : ComputedStyle) (k : String) : String :=
  (styleGet st k).getD ""

/-! ### Box model (internal/layout)

`layout.Box` is an interface with three implementations, `BlockBox`,
`InlineBox` and `ImageBox`, all of which share the geometry and edge fields.
Those shared fields are gathered in `BoxData`.  Children slices can hold
`nil` interface values in Go (notably the slices allocated by `cloneBox`),
so children are `List (Option Box)` with `none` playing the role of `nil`.
-/

/-- The fields shared by `layout.BlockBox`, `layout.InlineBox` and
`layout.ImageBox`: originating node (weak reference), style view, geometry
and the three box-model edge groups. -/
structure BoxData where
  node : Option NodeData
  style : ComputedStyle
  x : ℚ
  y : ℚ
  width : ℚ
  height : ℚ
  marginTop : ℚ
  marginRight : ℚ
  marginBottom : ℚ
  marginLeft : ℚ
  paddingTop : ℚ
  paddingRight : ℚ
  paddingBottom : ℚ
  paddingLeft : ℚ
  borderTop : ℚ
  borderRight : ℚ
  borderBottom : ℚ
  borderLeft : ℚ
deriving DecidableEq, Repr

/-- A `BoxData` with zero geometry and edges, no node and empty style:
the Go zero value of the shared fields. -/
def BoxData.zero : BoxData :=
  { node := none, style := [], x := 0, y := 0, width := 0, height := 0,
    marginTop := 0, marginRight := 0, marginBottom := 0, marginLeft := 0,
    paddingTop := 0, paddingRight := 0, paddingBottom := 0, paddingLeft := 0,
    borderTop := 0, borderRight := 0, borderBottom := 0, borderLeft := 0 }

/-- `layout.Box`: `blockB` is `*BlockBox`, `inlineB` is `*InlineBox`
(carrying its `Text` field), `imageB` is `*ImageBox` (carrying `Src`). -/
inductive Box where
  | blockB (d : BoxData) (children : List (Option Box))
  | inlineB (d : BoxData) (text : String) (children : List (Option Box))
  | imageB (d : BoxData) (src : String)

/-- The shared-field record of a box. -/
def Box.dat : Box → BoxData
  | .blockB d _ => d
  | .inlineB d _ _ => d
  | .imageB d _ => d

/-- Models `box.GetX()`. -/
def Box.getX (b : Box) : ℚ := b.dat.x

/-- Models `box.GetY()`. -/
def Box.getY (b : Box) : ℚ := b.dat.y

/-- Models `box.GetWidth()`. -/
def Box.getWidth (b : Box) : ℚ := b.dat.width

/-- Models `box.GetHeight()`. -/
def Box.getHeight (b : Box) : ℚ := b.dat.height

/-- Models `box.GetNode()`. -/
def Box.getNode (b : Box) : Option NodeData := b.dat.node

/-- The `Text` of an inline box, `none` for the other kinds. -/
def Box.textOf : Box → Option String
  | .inlineB _ t _ => some t
  | _ => none

/-- The `Src` of an image box, `none` for the other kinds. -/
def Box.srcOf : Box → Option String
  | .imageB _ s => some s
  | _ => none

/-- The children slice of a box (`ImageBox` has none). -/
def Box.childrenOf : Box → List (Option Box)
  | .blockB _ cs => cs
  | .inlineB _ _ cs => cs
  | .imageB _ _ => []

/-- Models `box.SetPosition(x, y)` as a functional update. -/
def Box.setPosition (b : Box) (nx ny : ℚ) : Box :=
  match b with
  | .blockB d cs => .blockB { d with x := nx, y := ny } cs
  | .inlineB d t cs => .inlineB { d with x := nx, y := ny } t cs
  | .imageB d s => .imageB { d with x := nx, y := ny } s

/-! ### cloneBox (internal/pagination/paginate.go)

`cloneBox` copies every scalar field into a freshly allocated box of the
same kind.  For a `BlockBox` it allocates `make([]layout.Box,
len(b.Children))` and returns without filling it, so the clone's children
are all `nil`; for an `InlineBox` it fills the slice with recursive clones
(`cloneBox(nil)` falls through the type switch and returns `nil`); an
`ImageBox` is copied wholesale.  The default case returns the argument.
-/

mutual

/-- Model of `cloneBox`. -/
def cloneBox : Box → Box
  | .blockB d cs => .blockB d (List.replicate cs.length none)
  | .inlineB d t cs => .inlineB d t (cloneBoxChildren cs)
  | .imageB d s => .imageB d s

/-- The `for i, child := range b.Children` clone loop of the `InlineBox`
case, with `cloneBox(nil) = nil` for `nil` entries. -/
def cloneBoxChildren : List (Option Box) → List (Option Box)
  | [] => []
  | none :: rest => none :: cloneBoxChildren rest
  | some b :: rest => some (cloneBox b) :: cloneBoxChildren rest

end

mutual

/-- True when no `BlockBox` occurs anywhere in the box tree. -/
def Box.noBlockDesc : Box → Bool
  | .blockB _ _ => false
  | .inlineB _ _ cs => noBlockDescChildren cs
  | .imageB _ _ => true

/-- `Box.noBlockDesc` over a children slice (ignoring `nil` entries). -/
def noBlockDescChildren : List (Option Box) → Bool
  | [] => true
  | none :: rest => noBlockDescChildren rest
  | some b :: rest => b.noBlockDesc && noBlockDescChildren rest

end

mutual

theorem cloneBox_eq_of_noBlockDesc :
    ∀ b : Box, b.noBlockDesc = true → cloneBox b = b
  | .blockB _ _ => fun h => absurd h (by simp [Box.noBlockDesc])
  | .inlineB d t cs => fun h => by
      simp only [cloneBox]
      exact congrArg (Box.inlineB d t)
        (cloneBoxChildren_eq_of_noBlockDesc cs (by simpa [Box.noBlockDesc] using h))
  | .imageB _ _ => fun _ => rfl

theorem cloneBoxChildren_eq_of_noBlockDesc :
    ∀ cs : List (Option Box), noBlockDescChildren cs = true → cloneBoxChildren cs = cs
  | [] => fun _ => rfl
  | none :: rest => fun h => by
      simp only [cloneBoxChildren]
      exact congrArg (List.cons none)
        (cloneBoxChildren_eq_of_noBlockDesc rest (by simpa [noBlockDescChildren] using h))
  | some b :: rest => fun h => by
      have hb : b.noBlockDesc = true := by
        have := h
        simp [noBlockDescChildren, Bool.and_eq_true] at this
        exact this.1
      have hr : noBlockDescChildren rest = true := by
        have := h
        simp [noBlockDescChildren, Bool.and_eq_true] at this
        exact this.2
      simp only [cloneBoxChildren]
      rw [cloneBox_eq_of_noBlockDesc b hb, cloneBoxChildren_eq_of_noBlockDesc rest hr]

end

/-- A concrete image box used by the C4 example terms. -/
def exImageChild : Box :=
  .imageB { BoxData.zero with x := 3, y := 4, width := 40, height := 40 } "logo.png"

/-- A concrete element node used by the C4 example terms. -/
def exDivNode : NodeData :=
  { nid := 7, ntype := .element, data := "div", attrs := [] }

/-- A concrete block box with one real child, as built by the layout engine. -/
def exBlockParent : Box :=
  .blockB
    { BoxData.zero with
      node := some exDivNode
      x := 1
      y := 2
      width := 100
      height := 50 }
    [some exImageChild]

/-- C4 counterexample: `cloneBox` of a `BlockBox` with one child is not
structurally equal to the original — the clone's children slice holds a
single `nil`, not a recursively cloned child. -/
theorem cloneBox_block_not_structurally_equal :
    cloneBox exBlockParent ≠ exBlockParent := by
  simp [exBlockParent, cloneBox]

/-- C4 (amended): `cloneBox` copies the box's own scalar fields (node
reference, style view, geometry, edges) and its text/src payload, and a
clone of a box containing no `BlockBox` is structurally equal to the
original; but the children of a cloned `BlockBox` are a same-length list of
`nil` entries, not recursive clones. -/
theorem cloneBox_value_copy :
    ∀ b : Box,
      (cloneBox b).dat = b.dat ∧
      (cloneBox b).textOf = b.textOf ∧
      (cloneBox b).srcOf = b.srcOf ∧
      (b.noBlockDesc = true → cloneBox b = b) ∧
      (∀ d cs, b = .blockB d cs →
        cloneBox b = .blockB d (List.replicate cs.length none)) := by
  intro b
  refine ⟨?_, ?_, ?_, cloneBox_eq_of_noBlockDesc b, ?_⟩
  · cases b <;> rfl
  · cases b <;> rfl
  · cases b <;> rfl
  · intro d cs hb
    subst hb
    rfl

/-- C4 witness: the amended clone theorem applied to concrete boxes, with
each hypothesis discharged — an all-inline box round-trips structurally,
and the concrete block parent's clone has a `nil` child slot. -/
theorem cloneBox_value_copy_witness :
    (exImageChild.noBlockDesc = true → cloneBox exImageChild = exImageChild) ∧
    (∀ d cs, exBlockParent = .blockB d cs →
      cloneBox exBlockParent = .blockB d (List.replicate cs.length none)) ∧
    exImageChild.noBlockDesc = true ∧
    cloneBox exImageChild = exImageChild := by
  refine ⟨(cloneBox_value_copy exImageChild).2.2.2.1,
          (cloneBox_value_copy exBlockParent).2.2.2.2, by decide, ?_⟩
  exact (cloneBox_value_copy exImageChild).2.2.2.1 (by decide)

end GomPDF

namespace GomPDF

/-! ### Numeric helpers

Go `float64` arithmetic is modelled exactly on `ℚ`; decimal literals such
as `0.2`, `0.9` and `0.01` are the rationals `1/5`, `9/10`, `1/100`.
-/

/-- Absolute value, models `math.Abs`. -/
def qabs (q : ℚ) : ℚ := if q < 0 then -q else q

/-- Truncation toward zero, the rounding used by Go's `math.Mod`. -/
def qtrunc (q : ℚ) : ℤ := if q < 0 then Int.ceil q else Int.floor q

/-- Models `math.Mod(x, y) = x - y*Trunc(x/y)` (the result keeps `x`'s
sign).  Go returns NaN for `y = 0`; the model returns `x` there, a case
that only the dead `tr`/`td` provisional branch could observe. -/
def goMod (x y : ℚ) : ℚ := x - y * ((qtrunc (x / y) : ℤ) : ℚ)

/-- Models `fmt.Sprintf("%%.2f", q)` as the count of hundredths, rounding
half to even like Go's `strconv.FormatFloat`. -/
def fmt2 (q : ℚ) : ℤ :=
  let x := q * 100
  let n := Int.floor x
  let frac := x - (n : ℚ)
  if frac > 1/2 then n + 1
  else if frac < 1/2 then n
  else if n % 2 = 0 then n else n + 1

/-- Models `strings.Contains` (callers always pass a nonempty substring). -/
def strContains (s sub : String) : Bool := (s.splitOn sub).length != 1

/-- Replace the element at an index, identity when out of range. -/
def setIdx {α : Type} (i : ℕ) (a : α) : List α → List α
  | [] => []
  | x :: xs => match i with
    | 0 => a :: xs
    | n + 1 => x :: setIdx n a xs

/-- Update the element at an index, identity when out of range. -/
def modifyIdx {α : Type} (f : α → α) (i : ℕ) : List α → List α
  | [] => []
  | x :: xs => match i with
    | 0 => f x :: xs
    | n + 1 => x :: modifyIdx f n xs

/-- Stable insertion used by `sortByLess`: `a` is placed before the first
element `b` for which `less b a` is false. -/
def insertByLess {α : Type} (less : α → α → Bool) (a : α) : List α → List α
  | [] => [a]
  | b :: bs => if less b a then b :: insertByLess less a bs else a :: b :: bs

/-- Sorting by a strict-less predicate.  Go's `sort.Slice` is an
unspecified-order comparison sort; the model fixes the stable order (for
two tied elements Go's small-slice insertion sort makes the same choice). -/
def sortByLess {α : Type} (less : α → α → Bool) : List α → List α
  | [] => []
  | a :: as => insertByLess less a (sortByLess less as)

/-! ### Pagination data (internal/pagination/paginate.go) -/

/-- Model of `pagination.Page`. -/
structure Page where
  width : ℚ
  height : ℚ
  boxes : List Box

/-- Model of `pagination.PageSize`. -/
structure PageSize where
  width : ℚ
  height : ℚ
  name : String
deriving DecidableEq, Repr

/-- Model of `pagination.Margins`. -/
structure Margins where
  top : ℚ
  right : ℚ
  bottom : ℚ
  left : ℚ
deriving DecidableEq, Repr

/-- The `newPage` closure of `Paginate`: an empty page with the
paginator's dimensions. -/
def newPageGo (ps : PageSize) : Page :=
  { width := ps.width, height := ps.height, boxes := [] }

/-- Fallback box for list reads that Go performs on known-nonempty data. -/
def dummyBox : Box := .imageB BoxData.zero ""

/-- Fallback page for indexed reads at indices Go knows to be in range. -/
def dummyPage : Page := { width := 0, height := 0, boxes := [] }

/-! ### The two shiftSubtree helpers

`reflowByBottomThreshold` declares a local `shiftSubtree` that repositions
a box *and* all its descendants by a delta; it is modelled by `shiftWhole`.
The package-level `shiftSubtree(b, dx, dy)` repositions every strict
descendant of `b` but not `b` itself: each non-`nil` child is moved by the
delta and then recursively shifted, which is exactly a whole-subtree shift
of that child; it is modelled by `shiftSubtreeBox`.  The `dx == 0 && dy ==
0` early return is a pure optimisation and is dropped (shifting by zero is
the identity).
-/

mutual

/-- The local `shiftSubtree` of `reflowByBottomThreshold`: shifts the box
and every descendant by the delta. -/
def shiftWhole : Box → ℚ → ℚ → Box
  | .blockB d cs, dx, dy =>
      .blockB { d with x := d.x + dx, y := d.y + dy } (shiftWholeChildren cs dx dy)
  | .inlineB d t cs, dx, dy =>
      .inlineB { d with x := d.x + dx, y := d.y + dy } t (shiftWholeChildren cs dx dy)
  | .imageB d s, dx, dy => .imageB { d with x := d.x + dx, y := d.y + dy } s

/-- Child loop of the local `shiftSubtree` (`nil` children skipped). -/
def shiftWholeChildren : List (Option Box) → ℚ → ℚ → List (Option Box)
  | [], _, _ => []
  | none :: rest, dx, dy => none :: shiftWholeChildren rest dx dy
  | some c :: rest, dx, dy => some (shiftWhole c dx dy) :: shiftWholeChildren rest dx dy

end

/-- The package-level `shiftSubtree`: the box keeps its own position while
every child subtree is shifted wholesale. -/
def shiftSubtreeBox (b : Box) (dx dy : ℚ) : Box :=
  match b with
  | .blockB d cs => .blockB d (shiftWholeChildren cs dx dy)
  | .inlineB d t cs => .inlineB d t (shiftWholeChildren cs dx dy)
  | .imageB d s => .imageB d s

/-! ### Collection, sorting and classification -/

mutual

/-- Model of `collectBoxes`: the box itself followed by all descendants in
preorder (`nil` children are skipped by the `container == nil` guard). -/
def collectBoxes : Box → List Box
  | .blockB d cs => .blockB d cs :: collectChildren cs
  | .inlineB d t cs => .inlineB d t cs :: collectChildren cs
  | .imageB d s => [.imageB d s]

/-- `collectBoxes` over a children slice. -/
def collectChildren : List (Option Box) → List Box
  | [] => []
  | none :: rest => collectChildren rest
  | some b :: rest => collectBoxes b ++ collectChildren rest

end

/-- The comparison closure of `sortBoxesByPosition` and of the reflow
re-sort: primary ascending `Y` with a 1-unit tolerance, secondary
ascending `X`. -/
def boxLess (a b : Box) : Bool :=
  let yDiff := a.getY - b.getY
  if qabs yDiff < 1 then decide (a.getX < b.getX) else decide (yDiff < 0)

/-- Model of `sortBoxesByPosition`. -/
def sortBoxesByPosition (boxes : List Box) : List Box :=
  sortByLess boxLess boxes

/-- Model of `isHeader`: a `BlockBox` whose node is the `header` tag or
carries a class containing `"header"` (the `"page-header"` disjunct is
subsumed but modelled as written). -/
def isHeader : Box → Bool
  | .blockB d _ =>
      match d.node with
      | some n =>
          n.data == "header" ||
            n.attrs.any (fun a =>
              a.key == "class" &&
                (strContains a.val "header" || strContains a.val "page-header"))
      | none => false
  | _ => false

/-- Model of `isFooter`. -/
def isFooter : Box → Bool
  | .blockB d _ =>
      match d.node with
      | some n =>
          n.data == "footer" ||
            n.attrs.any (fun a =>
              a.key == "class" &&
                (strContains a.val "footer" || strContains a.val "page-footer"))
      | none => false
  | _ => false

mutual

/-- Model of `gatherNodeKeys`: the node ids of the box and all its
descendants (`fmt.Sprintf("%%p", n)` keys become `nid` values). -/
def gatherNodeKeys : Box → List Nat
  | .blockB d cs =>
      (match d.node with | some n => [n.nid] | none => []) ++ gatherKeysChildren cs
  | .inlineB d _ cs =>
      (match d.node with | some n => [n.nid] | none => []) ++ gatherKeysChildren cs
  | .imageB d _ => match d.node with | some n => [n.nid] | none => []

/-- `gatherNodeKeys` over a children slice. -/
def gatherKeysChildren : List (Option Box) → List Nat
  | [] => []
  | none :: rest => gatherKeysChildren rest
  | some b :: rest => gatherNodeKeys b ++ gatherKeysChildren rest

end

/-- True when the box is a `*BlockBox` with a non-`nil` node whose tag is
`tag`. -/
def isBlockWithTag (tag : String) : Box → Bool
  | .blockB d _ => match d.node with | some n => n.data == tag | none => false
  | _ => false

/-! ### Provisional page assignment (Paginate, first half) -/

/-- Association map from provisional page index to the boxes assigned to
that page, each tagged with its position in the sorted content list (the
model of Go's per-allocation interface identity). -/
abbrev PageBoxMap := List (ℤ × List (ℕ × Box))

/-- Append a value under a key, preserving first-insertion key order. -/
def pbAppend (k : ℤ) (v : ℕ × Box) : PageBoxMap → PageBoxMap
  | [] => [(k, [v])]
  | (k2, vs) :: rest =>
      if k2 = k then (k2, vs ++ [v]) :: rest else (k2, vs) :: pbAppend k v rest

/-- Lookup of a key's box list. -/
def pbGet (m : PageBoxMap) (k : ℤ) : Option (List (ℕ × Box)) :=
  (m.find? (fun p => p.1 = k)).map (fun p => p.2)

/-- The keys present in a `PageBoxMap`. -/
def pbKeys (m : PageBoxMap) : List ℤ := m.map (fun p => p.1)

/-- The `for pageIndex >= len(pages) { newPage() }` growth loop. -/
def growPages (ps : PageSize) (pages : List Page) (idx : ℤ) : List Page :=
  if idx < (pages.length : ℤ) then pages
  else pages ++ List.replicate (idx.toNat + 1 - pages.length) (newPageGo ps)

/-- State threaded through the provisional-assignment loop of `Paginate`. -/
structure ProvState where
  pages : List Page
  pageBoxes : PageBoxMap

/-- One iteration of the provisional-assignment loop (`for _, box := range
contentBoxes` after the header/footer pre-marking).  Marking a box in
`processedBoxes` and skipping it later is keyed on Go interface identity,
which is unique per collected box, so the three loops reduce to: skip
header/footer boxes, assign every other box once. -/
def provisionalStep (ps : PageSize) (pageHeight startY : ℚ)
    (st : ProvState) (ib : ℕ × Box) : ProvState :=
  let box := ib.2
  if isHeader box || isFooter box then st
  else
    let relativeY := box.getY - startY
    let idx0 : ℤ := Int.floor (relativeY / pageHeight)
    let idx1 : ℤ := if relativeY < pageHeight * (1/5) then 0 else idx0
    let pageIndex : ℤ :=
      if idx1 > 0 ∧ goMod relativeY pageHeight > pageHeight * (9/10) ∧
          (isBlockWithTag "tr" box || isBlockWithTag "td" box) then
        Int.floor (relativeY / pageHeight)
      else idx1
    let pages := growPages ps st.pages pageIndex
    { pages := pages, pageBoxes := pbAppend pageIndex ib st.pageBoxes }

/-- The scan for the table row with the greatest `Y` (strictly greater
updates, ties keep the first). -/
def lastTableRowOf (boxes : List Box) : Option Box :=
  boxes.foldl
    (fun acc box =>
      if isBlockWithTag "tr" box then
        match acc with
        | none => some box
        | some l => if box.getY > l.getY then some box else acc
      else acc)
    none

/-- Map write with override, models assignment into `tableRowPageMap`. -/
def mapPut (k : ℕ) (v : ℤ) : List (ℕ × ℤ) → List (ℕ × ℤ)
  | [] => [(k, v)]
  | (k2, v2) :: rest => if k2 = k then (k2, v) :: rest else (k2, v2) :: mapPut k v rest

/-- Map lookup for `tableRowPageMap`. -/
def mapGet (m : List (ℕ × ℤ)) (k : ℕ) : Option ℤ :=
  (m.find? (fun p => p.1 = k)).map (fun p => p.2)

/-- The `tableRowPageMap` construction loop of `Paginate`: every `tr` box
either pins the maximal row to the final page (when its natural offset
exceeds the last page boundary) or records its own clamped floor index. -/
def buildRowMap (pagesLen : ℕ) (pageHeight startY : ℚ) (contentBoxes : List Box) :
    List (ℕ × ℤ) :=
  let lastRow := lastTableRowOf contentBoxes
  contentBoxes.foldl
    (fun mp box =>
      if isBlockWithTag "tr" box then
        match box.getNode with
        | some n =>
          let relativePosition := box.getY - startY
          let desired0 : ℤ := Int.floor (relativePosition / pageHeight)
          let desired : ℤ :=
            if desired0 ≥ (pagesLen : ℤ) then (pagesLen : ℤ) - 1 else desired0
          match lastRow with
          | some lr =>
              let lastNid := match lr.getNode with | some m => m.nid | none => 0
              if lr.getY - startY > pageHeight * ((pagesLen : ℚ) - 1) then
                mapPut lastNid ((pagesLen : ℤ) - 1) mp
              else
                mapPut n.nid desired mp
          | none => mapPut n.nid desired mp
        | none => mp
      else mp)
    []

end GomPDF

namespace GomPDF

/-! ### distributeContentToPages

Go iterates `for pageIndex, boxes := range pageBoxes` over a map whose
iteration order the Go runtime randomizes.  The model therefore takes the
enumeration order of the page-index keys as an explicit `keyOrder`
argument; keys absent from the map are skipped.  Slice-append semantics
make pages appended *inside* `distributeContentToPages` invisible to the
caller (`pages` is passed by value), which the caller model reproduces by
truncating the result to the input length.
-/

/-- State threaded through the distribution loops: the page list, the
`addedBoxes` set (content-list positions, modelling interface identity)
and the `contentHashes` set (`"data-x-y"` keys with `%.2f` coordinates). -/
structure DistState where
  pages : List Page
  added : List Nat
  hashes : List (String × ℤ × ℤ)

/-- The `tr`/`td` content hash of a box, `none` when no hash is taken. -/
def distContentHashKey (box : Box) : Option (String × ℤ × ℤ) :=
  match box with
  | .blockB d _ =>
      match d.node with
      | some n =>
          if n.data = "tr" ∨ n.data = "td" then some (n.data, fmt2 d.x, fmt2 d.y)
          else none
      | none => none
  | _ => none

/-- The `tableRowPageMap` skip test: a `tr` box whose mapped page differs
from the page being filled is passed over (and never placed anywhere). -/
def distRowSkip (rowMap : List (ℕ × ℤ)) (k : ℤ) (box : Box) : Bool :=
  match box with
  | .blockB d _ =>
      match d.node with
      | some n =>
          if n.data = "tr" then
            match mapGet rowMap n.nid with
            | some mp => decide (mp ≠ k)
            | none => false
          else false
      | none => false
  | _ => false

/-- Page growth inside `distributeContentToPages`, using the base page's
dimensions (`pages[0]`). -/
def growPagesBase (bw bh : ℚ) (pages : List Page) (idx : ℤ) : List Page :=
  if idx < (pages.length : ℤ) then pages
  else pages ++ List.replicate (idx.toNat + 1 - pages.length)
    { width := bw, height := bh, boxes := [] }

/-- The `for newY+h > pageH-mBot { targetPageIndex++ }` advance loop for
pages after the first, written with explicit fuel; `advanceFuel` below
supplies enough fuel for the loop to reach its exit condition whenever the
effective page height is positive (otherwise the Go loop never ends). -/
def advanceTarget (mTop pageH mBot effH relY h : ℚ) : ℕ → ℤ → ℤ
  | 0, t => t
  | fuel + 1, t =>
      let newY := mTop + (relY - (t : ℚ) * effH)
      if newY + h > pageH - mBot then
        advanceTarget mTop pageH mBot effH relY h fuel (t + 1)
      else t

/-- Fuel that suffices for `advanceTarget` to exit by its condition. -/
def advanceFuel (mTop pageH mBot effH relY h : ℚ) (t0 : ℤ) : ℕ :=
  (Int.ceil ((mTop + relY + h - (pageH - mBot)) / effH) - t0).toNat + 1

/-- Smallest `Y` among a provisional page's boxes (`+Inf` start, `0` when
the list is empty). -/
def firstMinY (boxes : List (ℕ × Box)) : ℚ :=
  match boxes with
  | [] => 0
  | b :: rest => rest.foldl (fun acc p => if p.2.getY < acc then p.2.getY else acc) b.2.getY

/-- The node-subtree filter applied to a page's boxes when a box moves off
it: entries whose node belongs to the moved box's subtree are dropped. -/
def filterSubtree (subtree : List Nat) (boxes : List Box) : List Box :=
  boxes.filter (fun pb =>
    match pb.getNode with
    | some n => ¬ subtree.contains n.nid
    | none => true)

/-- Append a box to the page at an index. -/
def appendAt (idx : ℕ) (b : Box) (pages : List Page) : List Page :=
  modifyIdx (fun pg => { pg with boxes := pg.boxes ++ [b] }) idx pages

/-- The placement tail of the distribution body, from the
`tableRowPageMap` skip on, with the deduplication state already
updated to `st1`. -/
def distBoxPlace (m : Margins) (startY firstPageMinY : ℚ) (rowMap : List (ℕ × ℤ))
    (k : ℤ) (st1 : DistState) (i : ℕ) (box : Box) : DistState :=
  if distRowSkip rowMap k box then st1
  else
    let cloned := cloneBox box
        let basePage := st1.pages.headD dummyPage
        let effH := basePage.height - m.top - m.bottom
        if k > 0 then
          let relY := box.getY - startY
          let fuel := advanceFuel m.top basePage.height m.bottom effH relY cloned.getHeight k
          let t := advanceTarget m.top basePage.height m.bottom effH relY cloned.getHeight fuel k
          let pages := growPagesBase basePage.width basePage.height st1.pages t
          let newY0 := m.top + (relY - (t : ℚ) * effH)
          let newY := if newY0 < m.top then m.top else newY0
          let oldY := cloned.getY
          let c2 := shiftSubtreeBox (cloned.setPosition cloned.getX newY) 0 (newY - oldY)
          { st1 with pages := appendAt t.toNat c2 pages, added := st1.added ++ [i] }
        else
          let normalized0 := m.top + (box.getY - firstPageMinY)
          let normalizedY := if normalized0 < m.top then m.top else normalized0
          if normalizedY + cloned.getHeight ≥ basePage.height - m.bottom - 1/100 then
            let pages := growPagesBase basePage.width basePage.height st1.pages 1
            let oldY := cloned.getY
            let c2 := shiftSubtreeBox (cloned.setPosition cloned.getX m.top) 0 (m.top - oldY)
            let subtree := gatherNodeKeys box
            let pages := modifyIdx (fun pg =>
                if pg.boxes.length > 0 then { pg with boxes := filterSubtree subtree pg.boxes }
                else pg) 0 pages
            { st1 with pages := appendAt 1 c2 pages, added := st1.added ++ [i] }
          else
            let oldY := cloned.getY
            let c2 := shiftSubtreeBox (cloned.setPosition cloned.getX normalizedY) 0
              (normalizedY - oldY)
            { st1 with pages := appendAt k.toNat c2 st1.pages, added := st1.added ++ [i] }

/-- One iteration of the `for _, box := range boxes` body of
`distributeContentToPages` for provisional page `k`.  A negative `k`
would make Go panic on `pages[k]`; the model clamps with `toNat`, a case
unreachable for positive effective page heights. -/
def distBoxStep (m : Margins) (startY firstPageMinY : ℚ) (rowMap : List (ℕ × ℤ))
    (k : ℤ) (st : DistState) (ib : ℕ × Box) : DistState :=
  let i := ib.1
  let box := ib.2
  if st.added.contains i then st
  else
    let hkeyOpt := distContentHashKey box
    let dup := match hkeyOpt with
      | some hk => st.hashes.contains hk
      | none => false
    if dup then st
    else
      let st1 : DistState := match hkeyOpt with
        | some hk => { st with hashes := st.hashes ++ [hk] }
        | none => st
      distBoxPlace m startY firstPageMinY rowMap k st1 i box

/-- The per-key body of the `range pageBoxes` loop. -/
def distKey (m : Margins) (startY : ℚ) (rowMap : List (ℕ × ℤ)) (pageBoxes : PageBoxMap)
    (st : DistState) (k : ℤ) : DistState :=
  match pbGet pageBoxes k with
  | none => st
  | some boxes =>
      let base := st.pages.headD dummyPage
      let st1 : DistState := { st with pages := growPagesBase base.width base.height st.pages k }
      let fmy := if k = 0 then firstMinY boxes else 0
      boxes.foldl (distBoxStep m startY fmy rowMap k) st1

/-- Model of `distributeContentToPages`, iterating the map keys in the
given enumeration order.  The returned list includes pages appended
internally; `Paginate` sees only a prefix (see `paginateModel`). -/
def distributeContentToPages (m : Margins) (startY : ℚ) (rowMap : List (ℕ × ℤ))
    (pageBoxes : PageBoxMap) (keyOrder : List ℤ) (pages0 : List Page) : List Page :=
  (keyOrder.foldl (distKey m startY rowMap pageBoxes)
    { pages := pages0, added := [], hashes := [] }).pages

/-! ### reflowByBottomThreshold

The three nested Go loops are modelled with explicit fuel:
the destination search increments `tries` on every non-placing step and is
cut off by its own `tries > 1000` guard, so fuel `1003` is exact; a page
scan performs at most `len(Boxes)` removals and between removals at most
`len(Boxes)` index steps, so `(len+1)*(len+2)+1` steps suffice; a sweep
visits the current pages plus at most `1003` appended pages per moved box.
-/

/-- Geometry context of `reflowByBottomThreshold`. -/
structure ReflowCtx where
  pw : ℚ
  ph : ℚ
  mTop : ℚ
  mBot : ℚ

/-- `availablePageHeight` of the reflow pass. -/
def ReflowCtx.availH (c : ReflowCtx) : ℚ := c.ph - c.mTop - c.mBot

/-- The destination-search loop (`for { ... }`) that re-homes an overflow
box: starting at `dst`, find the first page whose current content bottom
leaves room, appending empty pages as needed.  On placement the local
`shiftSubtree` runs after `SetPosition`, so the box lands at `2y - oldY`
rather than `y`.  The `tries > 1000` safety guard appends at `dst+1`
(where Go would index out of range if that page is missing; the model's
`modifyIdx` is then the identity). -/
def reflowPlace (c : ReflowCtx) (b : Box) : ℕ → ℕ → ℕ → List Page → List Page
  | 0, _, _, pages => pages
  | fuel + 1, dst, tries, pages =>
      let pages := if pages.length ≤ dst then
          pages ++ [{ width := c.pw, height := c.ph, boxes := [] }]
        else pages
      let nextPage := pages.getD dst dummyPage
      let y := nextPage.boxes.foldl
        (fun acc nb => if nb.getY + nb.getHeight > acc then nb.getY + nb.getHeight else acc)
        c.mTop
      if y + b.getHeight > c.ph - c.mBot then
        let tries := tries + 1
        if tries > 1000 then
          appendAt (dst + 1) (b.setPosition b.getX c.mTop) pages
        else
          reflowPlace c b fuel (dst + 1) tries pages
      else
        let oldY := b.getY
        let b2 := shiftWhole (b.setPosition b.getX y) 0 (y - oldY)
        appendAt dst b2 pages

/-- The `for j := 0; j < len(page.Boxes);` scan of one page: pin
never-fitting boxes to the top margin (the local `shiftSubtree` doubles
the shift, landing them at `2*top - oldY`), move boxes crossing the
bottom threshold (with their subtree companions removed) and restart at
`j = 0` after each removal. -/
def reflowScanPage (c : ReflowCtx) : ℕ → ℕ → ℕ → List Page → Bool → List Page × Bool
  | 0, _, _, pages, moved => (pages, moved)
  | fuel + 1, i, j, pages, moved =>
      let page := pages.getD i dummyPage
      if h : j < page.boxes.length then
        let b := page.boxes.get ⟨j, h⟩
        if b.getHeight > c.availH then
          if b.getY > c.mTop + 1/100 then
            let oldY := b.getY
            let b2 := shiftWhole (b.setPosition b.getX c.mTop) 0 (c.mTop - oldY)
            let pages := setIdx i { page with boxes := setIdx j b2 page.boxes } pages
            reflowScanPage c fuel i (j + 1) pages true
          else
            reflowScanPage c fuel i (j + 1) pages moved
        else if b.getY + b.getHeight > c.ph - c.mBot then
          let subtree := gatherNodeKeys b
          let filtered := filterSubtree subtree (page.boxes.eraseIdx j)
          let pages := setIdx i { page with boxes := filtered } pages
          let pages := reflowPlace c b 1003 (i + 1) 0 pages
          reflowScanPage c fuel i 0 pages true
        else
          reflowScanPage c fuel i (j + 1) pages moved
      else (pages, moved)

/-- Total number of boxes currently on the pages. -/
def totalBoxCount (pages : List Page) : ℕ :=
  (pages.map (fun p => p.boxes.length)).sum

/-- One sweep (`for i := 0; i < len(pages); i++`): scan each page and then
re-sort it vertically when it holds more than one box. -/
def reflowSweep (c : ReflowCtx) : ℕ → ℕ → List Page → Bool → List Page × Bool
  | 0, _, pages, moved => (pages, moved)
  | fuel + 1, i, pages, moved =>
      if i < pages.length then
        let page := pages.getD i dummyPage
        let scanFuel := (page.boxes.length + 1) * (page.boxes.length + 2) + 1
        let res := reflowScanPage c scanFuel i 0 pages moved
        let page1 := res.1.getD i dummyPage
        let pages2 :=
          if page1.boxes.length > 1 then
            setIdx i { page1 with boxes := sortByLess boxLess page1.boxes } res.1
          else res.1
        reflowSweep c fuel (i + 1) pages2 res.2
      else (pages, moved)

/-- The `for iter := 0; iter < maxIterations; iter++` loop: sweep until a
sweep moves nothing, or the iteration budget runs out — in which case the
current page list is returned as-is (there is no error channel). -/
def reflowIter (c : ReflowCtx) : ℕ → List Page → List Page
  | 0, pages => pages
  | n + 1, pages =>
      let fuel := pages.length + 1003 * totalBoxCount pages + 1
      let res := reflowSweep c fuel 0 pages false
      if res.2 then reflowIter c n res.1 else res.1

/-- Model of `reflowByBottomThreshold` with its `maxIterations = 50`. -/
def reflowByBottomThreshold (ps : PageSize) (m : Margins) (pages : List Page) : List Page :=
  if pages.length = 0 then pages
  else reflowIter { pw := ps.width, ph := ps.height, mTop := m.top, mBot := m.bottom } 50 pages

/-! ### Paginate -/

/-- Model of `getContentContainer`: both branches of the Go type switch
return the argument. -/
def getContentContainer (root : Box) : Box := root

/-- The content boxes of the root: for a `BlockBox` container, the
descendants of each child (the container itself excluded); otherwise the
fallback collects the container itself too. -/
def contentBoxesOf (root : Box) : List Box :=
  match getContentContainer root with
  | .blockB _ cs => collectChildren cs
  | c => collectBoxes c

/-- The sorted content-box sequence of `Paginate`. -/
def sortedContentOf (root : Box) : List Box :=
  sortBoxesByPosition (contentBoxesOf root)

/-- Content height estimate (`totalHeight` in `Paginate`). -/
def totalHeightOf (sorted : List Box) : ℚ :=
  match sorted with
  | [] => 0
  | _ => (sorted.getLastD dummyBox).getY + (sorted.getLastD dummyBox).getHeight -
      (sorted.headD dummyBox).getY

/-- The provisional state after page-count estimation and the
provisional-assignment loop of `Paginate`. -/
def provStateOf (ps : PageSize) (m : Margins) (root : Box) : ProvState :=
  let sorted := sortedContentOf root
  let pageHeight := ps.height - m.top - m.bottom
  let pageCount : ℤ :=
    let pc := Int.ceil (totalHeightOf sorted / pageHeight)
    if pc < 1 then 1 else pc
  let pages1 := [newPageGo ps] ++ List.replicate (pageCount.toNat - 1) (newPageGo ps)
  let startY := (sorted.headD dummyBox).getY
  sorted.enum.foldl (provisionalStep ps pageHeight startY)
    { pages := pages1, pageBoxes := [] }

/-- The key set of the provisional page map — the set Go's randomized map
range enumerates in `distributeContentToPages`. -/
def provPageKeys (ps : PageSize) (m : Margins) (root : Box) : List ℤ :=
  pbKeys (provStateOf ps m root).pageBoxes

/-- Model of `(*Paginator).Paginate`.  `keyOrder` is the runtime's
iteration order over the provisional page map (see
`distributeContentToPages`); every other step is deterministic. -/
def paginateModel (ps : PageSize) (m : Margins) (root : Box) (keyOrder : List ℤ) :
    List Page :=
  let sorted := sortedContentOf root
  let pageHeight := ps.height - m.top - m.bottom
  let startY := (sorted.headD dummyBox).getY
  let prov := provStateOf ps m root
  let rowMap := buildRowMap prov.pages.length pageHeight startY sorted
  let distributed := (distributeContentToPages m startY rowMap prov.pageBoxes keyOrder
    prov.pages).take prov.pages.length
  let reflowed := reflowByBottomThreshold ps m distributed
  reflowed.filter (fun pg => pg.boxes.length > 0)

end GomPDF

namespace GomPDF

/-! ### Concrete pagination inputs for the claim instances -/

/-- A 100×100 page used by the concrete pagination instances. -/
def exPageSize : PageSize := { width := 100, height := 100, name := "T" }

/-- Uniform 10-unit margins: usable height 80, bottom threshold 90. -/
def exMargins : Margins := { top := 10, right := 10, bottom := 10, left := 10 }

/-- A childless block box with the given node id, tag and geometry. -/
def mkTagBlock (nid : Nat) (tag : String) (x y w h : ℚ) : Box :=
  .blockB
    { BoxData.zero with
      node := some { nid := nid, ntype := .element, data := tag, attrs := [] }
      x := x
      y := y
      width := w
      height := h } []

/-- Number of boxes in a list whose originating node has the given id. -/
def countNodeList (bs : List Box) (nid : Nat) : ℕ :=
  (bs.filter (fun b => b.getNode.map NodeData.nid == some nid)).length

/-- Number of boxes across all pages whose originating node has the id. -/
def countNodeBoxes (pgs : List Page) (nid : Nat) : ℕ :=
  (pgs.map (fun p => countNodeList p.boxes nid)).sum

/-- Per-page lists of originating-node ids, the projection used to compare
two pagination outputs. -/
def pageNids (pgs : List Page) : List (List (Option Nat)) :=
  pgs.map (fun p => p.boxes.map (fun b => b.getNode.map NodeData.nid))

/-- A `<header>` box as laid out at the top of the page. -/
def exHeaderBox : Box := mkTagBlock 1 "header" 10 10 80 20

/-- An ordinary content box below the header. -/
def exBodyDiv : Box := mkTagBlock 2 "div" 10 30 80 20

/-- Root whose content is a header box followed by a content box. -/
def exHeaderRoot : Box := .blockB BoxData.zero [some exHeaderBox, some exBodyDiv]

/-- C1: `Paginate` classifies header/footer boxes into `processedBoxes`
and then never assigns them to any page: on a tree containing a `<header>`
box and a `<div>` box, the header box is present in the collected content
(once) but appears on zero output pages, while the `<div>` appears on
exactly one.  The provisional map has the single key `0`, so `[0]` is the
only possible map enumeration order. -/
theorem paginate_header_box_dropped :
    countNodeList (contentBoxesOf exHeaderRoot) 1 = 1 ∧
    isHeader exHeaderBox = true ∧
    provPageKeys exPageSize exMargins exHeaderRoot = [0] ∧
    countNodeBoxes (paginateModel exPageSize exMargins exHeaderRoot [0]) 1 = 0 ∧
    countNodeBoxes (paginateModel exPageSize exMargins exHeaderRoot [0]) 2 = 1 := by
  decide

/-- First content box of the order-dependence instance: fills page 0's
usable height exactly, so distribution moves it to page 1's top. -/
def exBoxA : Box := mkTagBlock 1 "div" 10 0 50 80

/-- Second content box: provisionally assigned to page 1 and translated
to the top margin there — the same final position as `exBoxA`. -/
def exBoxB : Box := mkTagBlock 2 "div" 10 80 50 50

/-- Root with the two boxes above as its content. -/
def exOrderRoot : Box := .blockB BoxData.zero [some exBoxA, some exBoxB]

/-- C3 counterexample: the provisional page map of this input has the key
set `{0, 1}`, and iterating it in the two orders Go's randomized map range
can produce yields different page lists — the two boxes land on page 1 in
enumeration order, and the stabilizing re-sort cannot separate them
because they share their final position. -/
theorem paginate_output_depends_on_map_order :
    provPageKeys exPageSize exMargins exOrderRoot = [0, 1] ∧
    ([0, 1] : List ℤ).Perm [1, 0] ∧
    pageNids (paginateModel exPageSize exMargins exOrderRoot [0, 1]) ≠
      pageNids (paginateModel exPageSize exMargins exOrderRoot [1, 0]) := by
  refine ⟨by decide, by decide, by decide⟩

/-- C3 (amended): pagination is deterministic for identical inputs *and*
an identical enumeration order of the provisional page map; the map
iteration order, which the Go runtime randomizes, is the one source of
run-to-run divergence in the pipeline. -/
theorem paginate_deterministic_for_fixed_order
    (ps : PageSize) (m : Margins) (root : Box) (ord1 ord2 : List ℤ)
    (h : ord1 = ord2) :
    paginateModel ps m root ord1 = paginateModel ps m root ord2 := by
  rw [h]

/-- C3 witness: the amended determinism theorem at the concrete input. -/
theorem paginate_deterministic_for_fixed_order_witness :
    ([0, 1] : List ℤ) = [0, 1] ∧
    paginateModel exPageSize exMargins exOrderRoot [0, 1] =
      paginateModel exPageSize exMargins exOrderRoot [0, 1] :=
  ⟨rfl, paginate_deterministic_for_fixed_order exPageSize exMargins exOrderRoot
    [0, 1] [0, 1] rfl⟩

/-! ### C10: pagination of an empty content tree -/

theorem distKey_of_empty_map (m : Margins) (sY : ℚ) (rm : List (ℕ × ℤ))
    (st : DistState) (k : ℤ) : distKey m sY rm [] st k = st := by
  simp [distKey, pbGet]

theorem foldl_distKey_of_empty_map (m : Margins) (sY : ℚ) (rm : List (ℕ × ℤ)) :
    ∀ (ord : List ℤ) (st : DistState), ord.foldl (distKey m sY rm []) st = st
  | [], _ => rfl
  | k :: ord, st => by
      rw [List.foldl_cons, distKey_of_empty_map, foldl_distKey_of_empty_map m sY rm ord]

theorem reflow_one_blank_page (ps : PageSize) (m : Margins) :
    reflowByBottomThreshold ps m [newPageGo ps] = [newPageGo ps] := by
  simp [reflowByBottomThreshold, reflowIter, totalBoxCount, reflowSweep, reflowScanPage,
    newPageGo]

/-- C10 (amended): for every geometry and every map enumeration order,
paginating a `BlockBox` root with no children yields the empty page list —
the single estimated page stays empty and is dropped by the final filter.
The restriction to a `BlockBox` root is necessary, see the counterexample. -/
theorem paginate_empty_block_root_returns_no_pages
    (ps : PageSize) (m : Margins) (d : BoxData) (ord : List ℤ) :
    paginateModel ps m (.blockB d []) ord = [] := by
  have hsort : sortedContentOf (.blockB d []) = [] := rfl
  have hprov : provStateOf ps m (.blockB d []) =
      { pages := [newPageGo ps], pageBoxes := [] } := by
    simp [provStateOf, hsort, totalHeightOf]
  simp only [paginateModel, hprov, hsort]
  rw [distributeContentToPages, foldl_distKey_of_empty_map]
  simp only [List.length_cons, List.length_nil, List.take_succ_cons, List.take_nil]
  rw [reflow_one_blank_page]
  simp [newPageGo]

/-- A childless `InlineBox` root, as the fallback branch of the collector
sees it. -/
def exInlineRoot : Box :=
  .inlineB { BoxData.zero with x := 5, y := 5, width := 20, height := 12 } "hi" []

/-- C10 counterexample: for a non-`BlockBox` root the collector's fallback
gathers the container itself, so a childless root box yields one page, not
zero — the claim fails when quantified over every root box. -/
theorem paginate_childless_inline_root_yields_a_page :
    exInlineRoot.childrenOf = [] ∧
    provPageKeys exPageSize exMargins exInlineRoot = [0] ∧
    (paginateModel exPageSize exMargins exInlineRoot [0]).length = 1 := by
  refine ⟨rfl, by decide, by decide⟩

end GomPDF

namespace GomPDF

/-! ### String and parsing helpers (internal/layout)

`unicode.IsSpace` is modelled on the ASCII whitespace set (the only
whitespace the engine's inputs use); `strconv.ParseFloat` and
`strconv.Atoi` are modelled on plain decimal syntax, the fragment the
style values exercise.
-/

/-- ASCII model of `unicode.IsSpace`. -/
def isSpaceChar (c : Char) : Bool :=
  c = ' ' ∨ c = '\t' ∨ c = '\n' ∨ c = '\r' ∨ c = '\x0b' ∨ c = '\x0c'

/-- Models `strings.TrimSpace`. -/
def trimSpace (s : String) : String :=
  ⟨((s.toList.dropWhile isSpaceChar).reverse.dropWhile isSpaceChar).reverse⟩

/-- Models `strings.ToLower` (ASCII case folding). -/
def strToLower (s : String) : String := ⟨s.toList.map Char.toLower⟩

/-- Models `strings.EqualFold` (ASCII simple folding). -/
def equalFold (a b : String) : Bool := strToLower a == strToLower b

/-- Models `strings.HasSuffix`. -/
def strHasSuffix (s sfx : String) : Bool := sfx.toList.isSuffixOf s.toList

/-- `s[:len(s)-k]` for an ASCII suffix of length `k`. -/
def strDropRight (s : String) (k : ℕ) : String :=
  ⟨s.toList.take (s.toList.length - k)⟩

/-- Models `strings.Fields`: whitespace-separated substrings. -/
def strFields (s : String) : List String :=
  (s.split (fun c => isSpaceChar c)).filter (fun p => p ≠ "")

/-- Digit-string value; `none` when empty or a non-digit occurs. -/
def digitsVal (cs : List Char) : Option ℕ :=
  if cs = [] ∨ ¬ cs.all Char.isDigit then none
  else some (cs.foldl (fun acc c => acc * 10 + (c.toNat - '0'.toNat)) 0)

/-- Model of `strconv.ParseFloat` on the decimal fragment
`[+-]? digits [. digits]` (at least one digit overall, as Go accepts
`"5."` and `".5"`). -/
def parseFloat (s : String) : Option ℚ :=
  let cs := s.toList
  let (sign, cs) : ℚ × List Char :=
    match cs with
    | '-' :: r => (-1, r)
    | '+' :: r => (1, r)
    | r => (1, r)
  let intPart := cs.takeWhile Char.isDigit
  let rest := cs.dropWhile Char.isDigit
  match rest with
  | [] =>
      match digitsVal intPart with
      | some n => some (sign * n)
      | none => none
  | '.' :: fracPart =>
      if fracPart.all Char.isDigit ∧ (intPart ≠ [] ∨ fracPart ≠ []) then
        let ip : ℚ := ((digitsVal intPart).getD 0 : ℕ)
        let fp : ℚ := ((digitsVal fracPart).getD 0 : ℕ)
        some (sign * (ip + fp / (10 : ℚ) ^ fracPart.length))
      else none
  | _ => none

/-- Model of `strconv.Atoi` on `[+-]? digits`. -/
def parseAtoi (s : String) : Option ℤ :=
  match s.toList with
  | '-' :: r => (digitsVal r).map (fun n => -(n : ℤ))
  | '+' :: r => (digitsVal r).map (fun n => (n : ℤ))
  | r => (digitsVal r).map (fun n => (n : ℤ))

/-- Model of `layout.parseLength`.  The suffixes are tried in source
order — `%`, `px`, `em`, `rem` — so a `rem` value matches the `em` test
first, fails its float parse and falls back to the default. -/
def parseLength (value : String) (containerSize defaultValue : ℚ) : ℚ :=
  if value = "" then defaultValue
  else if strHasSuffix value "%" then
    match parseFloat (strDropRight value 1) with
    | some p => containerSize * p / 100
    | none => defaultValue
  else if strHasSuffix value "px" then
    match parseFloat (strDropRight value 2) with
    | some p => p
    | none => defaultValue
  else if strHasSuffix value "em" then
    match parseFloat (strDropRight value 2) with
    | some p => p * 16
    | none => defaultValue
  else if strHasSuffix value "rem" then
    match parseFloat (strDropRight value 3) with
    | some p => p * 16
    | none => defaultValue
  else
    match parseFloat value with
    | some p => p
    | none => defaultValue

/-- Models `math.Max`. -/
def qmax (a b : ℚ) : ℚ := if a < b then b else a

/-! ### The HTML tree and the styles map

`html.Node` is a doubly linked tree in Go; the model is a plain tree, and
the two places that walk `Parent` pointers (the nearest-`table` lookups)
instead receive that ancestor as an explicit argument, maintained by the
recursion that descends the tree.  `Engine.styles`
(`map[*html.Node]ComputedStyle`) becomes a function from node id.
-/

/-- Model of `html.Node`. -/
inductive HNode where
  | mk (nd : NodeData) (children : List HNode)

/-- Node payload. -/
def HNode.nd : HNode → NodeData
  | .mk d _ => d

/-- Child list. -/
def HNode.children : HNode → List HNode
  | .mk _ cs => cs

/-- Model of `Engine.styles`. -/
abbrev StyleMap := Nat → Option ComputedStyle

/-- Child styles shadow parent styles; in the association-list model the
leftmost binding wins, so `mergeStyles` puts the child bindings first. -/
def mergeStyles (parentStyle childStyle : ComputedStyle) : ComputedStyle :=
  childStyle ++ parentStyle

/-- `if _, ok := st[k]; !ok { st[k] = v }`. -/
def styleSetDefault (st : ComputedStyle) (k v : String) : ComputedStyle :=
  match styleGet st k with
  | some _ => st
  | none => st ++ [(k, v)]

/-! ### computeTableColumnWidths (Table Row Formatter) -/

/-- One scanned cell: declared width, column span, declaration flag. -/
structure ColSpec where
  width : ℚ
  span : ℕ
  hasWidth : Bool
deriving DecidableEq, Repr

/-- The colspan attribute scan: the last `colspan` attribute that parses
to an integer greater than 1 wins; default 1. -/
def scanColspan (attrs : List HAttr) : ℕ :=
  attrs.foldl
    (fun span a =>
      if equalFold a.key "colspan" then
        match parseAtoi (trimSpace a.val) with
        | some n => if n > 1 then n.toNat else span
        | none => span
      else span)
    1

/-- The width-attribute scan entered when the computed style declared no
width: `%`/`px` values go through `parseLength` (always assigning the
parsed value, flagging only positive ones); bare numbers are accepted
when positive. -/
def scanWidthAttrs (totalWidth : ℚ) (attrs : List HAttr) (init : ℚ × Bool) : ℚ × Bool :=
  attrs.foldl
    (fun (acc : ℚ × Bool) a =>
      if equalFold a.key "width" then
        let v := trimSpace a.val
        if strHasSuffix v "%" || strHasSuffix v "px" then
          let wv := parseLength v totalWidth 0
          (wv, if wv > 0 then true else acc.2)
        else
          match parseFloat v with
          | some f => if f > 0 then (f, true) else acc
          | none => acc
      else acc)
    init

/-- Width and span of one `th`/`td` cell node: computed style first, then
the `width` attribute. -/
def scanCellSpec (styles : StyleMap) (totalWidth : ℚ) (c : HNode) : ColSpec :=
  let span := scanColspan c.nd.attrs
  let fromStyle : ℚ × Bool :=
    match styles c.nd.nid with
    | some st =>
        match styleGet st "width" with
        | some wval =>
            if trimSpace wval ≠ "" then
              let wv := parseLength wval totalWidth 0
              (wv, decide (wv > 0))
            else (0, false)
        | none => (0, false)
    | none => (0, false)
  let wh := if fromStyle.2 then fromStyle else scanWidthAttrs totalWidth c.nd.attrs (fromStyle.1, false)
  { width := wh.1, span := span, hasWidth := wh.2 }

/-- One child step of the `scanTR` loop: `th`/`td` element children
contribute a spec and their span. -/
def scanTRStep (styles : StyleMap) (totalWidth : ℚ)
    (acc : List ColSpec × ℕ) (c : HNode) : List ColSpec × ℕ :=
  if c.nd.ntype = .element ∧
      (strToLower c.nd.data = "th" ∨ strToLower c.nd.data = "td") then
    let s := scanCellSpec styles totalWidth c
    (acc.1 ++ [s], acc.2 + s.span)
  else acc

/-- Model of the `scanTR` closure: specs of the row's `th`/`td` element
children and the total column count (spans included). -/
def scanTR (styles : StyleMap) (totalWidth : ℚ) (tr : HNode) : List ColSpec × ℕ :=
  tr.children.foldl (scanTRStep styles totalWidth) ([], 0)

/-- The `<thead>` row scan: the first `tr` whose scan yields columns. -/
def theadScanTRs (styles : StyleMap) (totalWidth : ℚ) : List HNode → List ColSpec × ℕ
  | [] => ([], 0)
  | tr :: rest =>
      if tr.nd.ntype = .element ∧ equalFold tr.nd.data "tr" then
        let r := scanTR styles totalWidth tr
        if r.2 = 0 then theadScanTRs styles totalWidth rest else r
      else theadScanTRs styles totalWidth rest

/-- The `for n := t.FirstChild; n != nil && cols == 0` loop over the
table's children, entering each `thead`. -/
def theadFirstSpecs (styles : StyleMap) (totalWidth : ℚ) (tbl : HNode) : List ColSpec × ℕ :=
  go tbl.children
where
  go : List HNode → List ColSpec × ℕ
    | [] => ([], 0)
    | n :: rest =>
        if n.nd.ntype = .element ∧ equalFold n.nd.data "thead" then
          let r := theadScanTRs styles totalWidth n.children
          if r.2 = 0 then go rest else r
        else go rest

/-- The width-assignment second half of `computeTableColumnWidths`: write
`width/span` into each column a declared spec covers and `0` elsewhere
(the `idx < cols` guard never fires because `cols` is the sum of the
spans), then split the clamped remainder over the zero columns. -/
def assignColWidths (specs : List ColSpec) (effective : ℚ) : List ℚ :=
  let colWidths := (specs.map (fun s =>
      List.replicate s.span (if s.hasWidth then s.width / (s.span : ℚ) else 0))).flatten
  let totalDeclared := (specs.map (fun s =>
      if s.hasWidth then (s.span : ℚ) * (s.width / (s.span : ℚ)) else 0)).sum
  let remaining0 := effective - totalDeclared
  let remaining := if remaining0 < 0 then 0 else remaining0
  let zeroCount := (colWidths.filter (fun w => w = 0)).length
  if zeroCount > 0 then
    colWidths.map (fun w => if w = 0 then remaining / (zeroCount : ℚ) else w)
  else colWidths

/-- True for a `*BlockBox` child whose node tag lowercases to `td`/`th`. -/
def isCellBox : Box → Bool
  | .blockB d _ =>
      match d.node with
      | some n => strToLower n.data = "td" ∨ strToLower n.data = "th"
      | none => false
  | _ => false

/-- Model of `computeTableColumnWidths`.  `tableAncestor` is the nearest
ancestor node whose tag folds to `table` (the Go code walks `Parent`
pointers to find it); `rowNode` is the row's own node (`nil` guard
included); `rowChildren` are the row box's children, used only by the
no-table fallback. -/
def computeTableColumnWidths (styles : StyleMap) (tableAncestor : Option HNode)
    (rowNode : Option HNode) (rowChildren : List (Option Box))
    (totalWidth gap : ℚ) : List ℚ × ℕ :=
  match rowNode with
  | none => ([], 0)
  | some rn =>
    match tableAncestor with
    | none =>
        let cells := (rowChildren.filter (fun ch =>
            match ch with
            | some b => isCellBox b
            | none => false)).length
        if cells = 0 then ([], 0)
        else
          let eff := totalWidth - gap * qmax 0 ((cells : ℚ) - 1)
          (List.replicate cells (eff / (cells : ℚ)), cells)
    | some t =>
        let hr := theadFirstSpecs styles totalWidth t
        let sel := if hr.2 = 0 then scanTR styles totalWidth rn else hr
        if sel.2 = 0 then ([], 0)
        else
          let effective := totalWidth - gap * qmax 0 ((sel.2 : ℚ) - 1)
          (assignColWidths sel.1 effective, sel.2)

end GomPDF

namespace GomPDF

/-! ### Inline Formatter / Line Breaker (layoutParagraphInline) -/

/-- The text-measurement capability `measureTextWidth(text, size, style)`,
injected as a parameter (the Go implementation queries a shared fpdf
instance; the engine treats it as a deterministic width oracle). -/
abbrev Measure := String → ℚ → ComputedStyle → ℚ

/-- A mutable block container under construction: the box's own fields
plus its (non-`nil`) children, appended in order. -/
structure BlockB where
  d : BoxData
  children : List (Option Box)

/-- The container as a `layout.Box` value. -/
def BlockB.toBox (b : BlockB) : Box := .blockB b.d b.children

/-- Model of the local token record `tkn` (the `drop` flag is handled
structurally by `effLineTokens`). -/
structure Tok where
  text : String
  style : ComputedStyle
  width : ℚ
  isSpace : Bool
  fs : ℚ
  lh : ℚ
deriving DecidableEq, Repr

/-- Model of `isAllSpace`. -/
def isAllSpace (s : String) : Bool := s.toList.all isSpaceChar

/-- Model of `splitTokens`: alternating word/space tokens, every space
run collapsed to a single `' '`. -/
def splitTokens (s : String) : List String :=
  let cs := (trimSpace s).toList
  if cs = [] then []
  else
    let fin := cs.foldl
      (fun (st : List String × List Char × Option Bool) r =>
        let tokens := st.1
        let cur := st.2.1
        let isSp := isSpaceChar r
        let b := st.2.2.getD isSp
        if b ≠ isSp then
          let tokens := if cur ≠ [] then tokens ++ [String.mk cur] else tokens
          (tokens, if isSp then [' '] else [r], some isSp)
        else if isSp then
          (tokens, if cur = [] then [' '] else cur, some b)
        else
          (tokens, cur ++ [r], some b))
      ([], [], none)
    if fin.2.1 ≠ [] then fin.1 ++ [String.mk fin.2.1] else fin.1

/-- Model of `normalizeWhitespace`: collapse whitespace runs to single
spaces without trimming the ends. -/
def normalizeWhitespace (s : String) : String :=
  let fin := s.toList.foldl
    (fun (st : List Char × Bool) r =>
      if isSpaceChar r then (if st.2 then st.1 else st.1 ++ [' '], true)
      else (st.1 ++ [r], false))
    ([], false)
  String.mk fin.1

/-- A collected inline text run with its merged style. -/
structure InlineRun where
  text : String
  style : ComputedStyle

/-- Tokenization of one run into measured `Tok`s (the `raw` loop of
`layoutParagraphInline`): spaces are measured as `" "`, words are trimmed
and measured, empty tokens are skipped. -/
def runTokens (measure : Measure) (run : InlineRun) : List Tok :=
  if run.text = "" then []
  else
    let fs := match styleGet run.style "font-size" with
      | some v => if trimSpace v ≠ "" then parseLength v 0 16 else 16
      | none => 16
    let lh := match styleGet run.style "line-height" with
      | some v => if trimSpace v ≠ "" then parseLength v 0 (6/5 * fs) else 6/5 * fs
      | none => 6/5 * fs
    (splitTokens run.text).foldl
      (fun acc t =>
        let isSp := isAllSpace t
        let tw : String × ℚ :=
          if isSp then (t, measure " " fs run.style)
          else
            let tt := trimSpace t
            (tt, if tt ≠ "" then measure tt fs run.style else 0)
        if tw.1 ≠ "" then
          acc ++ [{ text := tw.1, style := run.style, width := tw.2,
                    isSpace := isSp, fs := fs, lh := lh }]
        else acc)
      []

/-- The effective tokens of a line at emission: `emitLine` marks a
trailing space token dropped and then skips dropped tokens. -/
def effLineTokens (line : List Tok) : List Tok :=
  match line.getLast? with
  | some tk => if tk.isSpace then line.dropLast else line
  | none => line

/-- `maxAscent`: the running maximum of the font sizes, from zero. -/
def lineMaxFs (toks : List Tok) : ℚ :=
  toks.foldl (fun a tk => if tk.fs > a then tk.fs else a) 0

/-- `maxDescent`: the running maximum of `lh - fs`, from zero. -/
def lineMaxLead (toks : List Tok) : ℚ :=
  toks.foldl (fun a tk => if tk.lh - tk.fs > a then tk.lh - tk.fs else a) 0

/-- The per-token placement loop of `emitLine`: boxes at the shared
baseline, horizontally packed from the alignment offset. -/
def placeTokens (startX baselineY lineH : ℚ) : ℚ → List Tok → List Box
  | _, [] => []
  | x, tk :: rest =>
      Box.inlineB
        { BoxData.zero with
          style := tk.style
          x := startX + x
          y := baselineY - tk.fs
          width := tk.width
          height := lineH }
        (if tk.isSpace then " " else tk.text) [] ::
        placeTokens startX baselineY lineH (x + tk.width) rest

/-- Model of the `emitLine` closure: baseline and line height from the
non-dropped tokens, alignment offset from the container's `text-align`,
and the advanced `curY`.  An empty line emits nothing and leaves `curY`. -/
def emitLineModel (containerStyle : ComputedStyle) (startX maxWidth : ℚ)
    (line : List Tok) (lineWidth curY : ℚ) : List Box × ℚ :=
  if line = [] then ([], curY)
  else
    let toks := effLineTokens line
    let maxAscent := lineMaxFs toks
    let maxDescent := lineMaxLead toks
    let baselineY := curY + maxAscent
    let align := match styleGet containerStyle "text-align" with
      | some v => if trimSpace v ≠ "" then strToLower (trimSpace v) else "left"
      | none => "left"
    let offsetX :=
      if align = "right" ∨ align = "end" then
        (if lineWidth < maxWidth then maxWidth - lineWidth else 0)
      else if align = "center" then
        (if lineWidth < maxWidth then (maxWidth - lineWidth) / 2 else 0)
      else 0
    (placeTokens startX baselineY (maxAscent + maxDescent) offsetX toks,
     curY + (maxAscent + maxDescent))

/-- State of the greedy-wrap loop. -/
structure WrapState where
  children : List Box
  line : List Tok
  lineWidth : ℚ
  curY : ℚ
  pending : Bool

/-- Emit the current line into the accumulated children (no-op when the
line is empty, mirroring `emitLine`'s early return). -/
def wrapEmit (cs : ComputedStyle) (startX maxWidth : ℚ) (st : WrapState) : WrapState :=
  if st.line = [] then st
  else
    let r := emitLineModel cs startX maxWidth st.line st.lineWidth st.curY
    { st with children := st.children ++ r.1, curY := r.2, line := [], lineWidth := 0 }

/-- The runes of `",.;:!?)]\x7dÂ»"`, the punctuation set that suppresses
a pending inter-word space. -/
def punctRunes : List Char :=
  [',', '.', ';', ':', '!', '?', ')', ']', '\x7d', 'Â', '»']

/-- First-rune punctuation test (`utf8.DecodeRuneInString` +
`strings.ContainsRune`; an empty string decodes to `RuneError`). -/
def firstRuneIsPunct (s : String) : Bool :=
  match s.toList with
  | [] => false
  | c :: _ => punctRunes.contains c

/-- One step of the wrap loop (`for i := 0; i < len(raw); i++`).  When a
pending space plus the word overflow a nonempty line, the Go `continue`
after `emitLine()` skips the rest of the body, so the word itself is
discarded, not carried to the new line. -/
def wrapStep (measure : Measure) (cs : ComputedStyle) (startX maxWidth : ℚ)
    (st : WrapState) (tk : Tok) : WrapState :=
  if tk.isSpace then { st with pending := true }
  else if st.pending ∧ ¬ firstRuneIsPunct tk.text = true ∧
      st.lineWidth + measure " " tk.fs tk.style + tk.width > maxWidth ∧ st.line ≠ [] then
    { wrapEmit cs startX maxWidth st with pending := false }
  else
    let st1 :=
      if st.pending then
        if firstRuneIsPunct tk.text then { st with pending := false }
        else
          let spw := measure " " tk.fs tk.style
          let st2 :=
            if st.line ≠ [] then
              { st with
                line := st.line ++ [{ text := " ", style := tk.style, width := spw,
                                      isSpace := true, fs := tk.fs, lh := tk.lh }]
                lineWidth := st.lineWidth + spw }
            else st
          { st2 with pending := false }
      else st
    let st2 :=
      if tk.width > maxWidth then
        (if st1.line ≠ [] then wrapEmit cs startX maxWidth st1 else st1)
      else if st1.lineWidth + tk.width > maxWidth ∧ st1.line ≠ [] then
        wrapEmit cs startX maxWidth st1
      else st1
    { st2 with line := st2.line ++ [tk], lineWidth := st2.lineWidth + tk.width }

/-- The whole wrap pass over the raw tokens, with the final flush:
returns the emitted boxes and the `curY` after the last line. -/
def layoutParagraphTokens (measure : Measure) (cs : ComputedStyle)
    (startX maxWidth curY0 : ℚ) (raw : List Tok) : List Box × ℚ :=
  let st := raw.foldl (wrapStep measure cs startX maxWidth)
    { children := [], line := [], lineWidth := 0, curY := curY0, pending := false }
  let fin := wrapEmit cs startX maxWidth st
  (fin.children, fin.curY)

/-! ### collectInlineRuns and run normalization -/

/-- Model of `Engine.isBlockTag`. -/
def isBlockTag (tag : String) : Bool :=
  ["div", "p", "h1", "h2", "h3", "h4", "h5", "h6",
   "ul", "ol", "li", "table", "thead", "tbody", "tfoot",
   "tr", "td", "th", "header", "footer", "section", "article",
   "form", "fieldset", "hr", "blockquote", "address", "main",
   "nav", "aside"].contains (strToLower tag)

/-- Model of `collectInlineRuns`: walk the children, keep text runs with
whitespace normalized (first/last runs trimmed on the outer side), merge
the parent element's style over the inherited one, default color and
font-size, and descend into non-block element children. -/
def collectInlineRuns (styles : StyleMap) : HNode → ComputedStyle → List InlineRun
  | n, inherited => goChildren n.nd none n.children inherited
where
  goChildren (parentNd : NodeData) (prev : Option NodeData) :
      List HNode → ComputedStyle → List InlineRun
    | [], _ => []
    | .mk chnd chcs :: rest, inherited =>
        let nxt : Option NodeData := rest.head?.map HNode.nd
        let here : List InlineRun :=
          match chnd.ntype with
          | .text =>
              if chnd.data = "" then []
              else
                let isFirstNode := match prev with
                  | none => true
                  | some p => p.ntype ≠ .text ∧ p.ntype ≠ .element
                let isLastNode := match nxt with
                  | none => true
                  | some p => p.ntype ≠ .text ∧ p.ntype ≠ .element
                let txt0 := normalizeWhitespace chnd.data
                let txt1 := if isFirstNode then ⟨txt0.toList.dropWhile isSpaceChar⟩ else txt0
                let txt2 := if isLastNode then
                    (⟨(txt1.toList.reverse.dropWhile isSpaceChar).reverse⟩ : String)
                  else txt1
                if txt2 = "" then []
                else
                  let eff0 := match styles parentNd.nid with
                    | some ps => mergeStyles inherited ps
                    | none => inherited
                  let eff1 := styleSetDefault eff0 "color" "#000000"
                  let eff2 := styleSetDefault eff1 "font-size" "16px"
                  [{ text := txt2, style := eff2 }]
          | .element =>
              if isBlockTag (strToLower chnd.data) then []
              else
                let eff := match styles chnd.nid with
                  | some ts => mergeStyles inherited ts
                  | none => inherited
                goChildren chnd none chcs eff
          | _ => []
        here ++ goChildren parentNd (some chnd) rest inherited

/-- Model of `normalizeInlineRuns`: insert a synthetic single-space run
between adjacent runs when neither side touches whitespace (byte-level
first/last checks; for space detection the last byte and last rune
agree). -/
def normalizeInlineRuns (runs : List InlineRun) : List InlineRun :=
  if runs.length ≤ 1 then runs else go runs
where
  go : List InlineRun → List InlineRun
    | [] => []
    | [r] => [r]
    | r :: r2 :: rest =>
        let currentEnds : Bool := (r.text ≠ "" : Bool) &&
          (match r.text.toList.getLast? with
           | some c => isSpaceChar c
           | none => false)
        let nextStarts : Bool := (r2.text ≠ "" : Bool) &&
          (match r2.text.toList.head? with
           | some c => isSpaceChar c
           | none => false)
        if currentEnds = false ∧ nextStarts = false ∧ r.text ≠ "" ∧ r2.text ≠ "" then
          r :: { text := " ", style := r.style } :: go (r2 :: rest)
        else
          r :: go (r2 :: rest)

/-- Model of `layoutParagraphInline`: collect and normalize the runs,
tokenize, wrap into the container's content box and set the container's
height from its last child. -/
def layoutParagraphInline (styles : StyleMap) (measure : Measure) (pNode : HNode)
    (container : BlockB) (baseStyle : ComputedStyle) : BlockB :=
  let runs := normalizeInlineRuns (collectInlineRuns styles pNode baseStyle)
  let raw := (runs.map (runTokens measure)).flatten
  let startX := container.d.x + container.d.paddingLeft + container.d.borderLeft
  let maxWidth := container.d.width
  let curY := container.d.y + container.d.paddingTop + container.d.borderTop
  let wrapped := layoutParagraphTokens measure container.d.style startX maxWidth curY raw
  let children := container.children ++ wrapped.1.map some
  let height := match children.getLast? with
    | some (some last) => (last.getY + last.getHeight) - container.d.y
    | _ => 0
  { d := { container.d with height := height }, children := children }

end GomPDF

namespace GomPDF

/-! ### layoutTableRow and shiftDescendants -/

mutual

/-- Model of `Engine.shiftDescendants`: every child is repositioned by
the delta (`ch.SetPosition(ch.GetX()+dx, ch.GetY()+dy)`); block children
recurse fully, inline children shift their own children one level
(recursing only into block grandchildren), image children stop.  Layout
trees hold no `nil` children (Go would panic). -/
def shiftDescendants (dx dy : ℚ) : List (Option Box) → List (Option Box)
  | [] => []
  | none :: rest => none :: shiftDescendants dx dy rest
  | some (.blockB d bcs) :: rest =>
      some (Box.blockB { d with x := d.x + dx, y := d.y + dy }
        (shiftDescendants dx dy bcs)) :: shiftDescendants dx dy rest
  | some (.inlineB d t ics) :: rest =>
      some (Box.inlineB { d with x := d.x + dx, y := d.y + dy } t
        (shiftInlineGrand dx dy ics)) :: shiftDescendants dx dy rest
  | some (.imageB d s) :: rest =>
      some (Box.imageB { d with x := d.x + dx, y := d.y + dy } s) ::
        shiftDescendants dx dy rest

/-- The inline case of `shiftDescendants`: grandchildren are repositioned
and only block grandchildren recurse. -/
def shiftInlineGrand (dx dy : ℚ) : List (Option Box) → List (Option Box)
  | [] => []
  | none :: rest => none :: shiftInlineGrand dx dy rest
  | some (.blockB d bcs) :: rest =>
      some (Box.blockB { d with x := d.x + dx, y := d.y + dy }
        (shiftDescendants dx dy bcs)) :: shiftInlineGrand dx dy rest
  | some (.inlineB d t ics) :: rest =>
      some (Box.inlineB { d with x := d.x + dx, y := d.y + dy } t ics) ::
        shiftInlineGrand dx dy rest
  | some (.imageB d s) :: rest =>
      some (Box.imageB { d with x := d.x + dx, y := d.y + dy } s) ::
        shiftInlineGrand dx dy rest

end

/-- The `extractGap` closure: `border-spacing` (first field), then `gap`,
then `column-gap`, with percentage lengths resolved against the row
width. -/
def extractGap (rowWidth : ℚ) (st : ComputedStyle) : Option ℚ :=
  match styleGet st "border-spacing" with
  | some v =>
      if trimSpace v ≠ "" then
        match strFields v with
        | p :: _ => some (parseLength p rowWidth 0)
        | [] => extractGapRest rowWidth st
      else extractGapRest rowWidth st
  | none => extractGapRest rowWidth st
where
  extractGapRest (rowWidth : ℚ) (st : ComputedStyle) : Option ℚ :=
    match styleGet st "gap" with
    | some v => if trimSpace v ≠ "" then some (parseLength v rowWidth 0) else extractGapLast rowWidth st
    | none => extractGapLast rowWidth st
  extractGapLast (rowWidth : ℚ) (st : ComputedStyle) : Option ℚ :=
    match styleGet st "column-gap" with
    | some v => if trimSpace v ≠ "" then some (parseLength v rowWidth 0) else none
    | none => none

/-- Column x-positions: consecutive widths separated by the gap. -/
def colPositions (gap : ℚ) : ℚ → List ℚ → List ℚ
  | _, [] => []
  | cx, w :: rest => cx :: colPositions gap (cx + w + gap) rest

/-- Model of `Engine.layoutTableRow`: place the row's `td`/`th` children
at the computed column offsets (honouring `colspan`), shift each cell's
descendants by the same delta, recompute cell heights (20-unit floor) and
set the row height to the cell maximum (20-unit floor).  `tableAncestor`
is the nearest ancestor whose tag folds to `table`. -/
def layoutTableRow (styles : StyleMap) (tableAncestor : Option HNode)
    (rowNode : HNode) (row : BlockB) : BlockB :=
  let anyCell := row.children.any (fun ch =>
    match ch with
    | some b => isCellBox b
    | none => false)
  if ¬ anyCell then row
  else
    let totalWidth := row.d.width
    let gap0 : ℚ :=
      match extractGap row.d.width row.d.style with
      | some v => v
      | none =>
          match tableAncestor with
          | some t =>
              match styles t.nd.nid with
              | some st => (extractGap row.d.width st).getD 0
              | none => 0
          | none => 0
    let cellGapX := if gap0 < 0 then 0 else gap0
    let cw0 := computeTableColumnWidths styles tableAncestor (some rowNode) row.children
      totalWidth cellGapX
    let cellCount := (row.children.filter (fun ch =>
        match ch with
        | some b => isCellBox b
        | none => false)).length
    let cw : List ℚ × ℕ :=
      if cw0.2 = 0 then
        let effective := totalWidth - cellGapX * qmax 0 ((cellCount : ℚ) - 1)
        let w := if cellCount > 0 then effective / (cellCount : ℚ) else 0
        (List.replicate cellCount w, cellCount)
      else cw0
    let colWidths := cw.1
    let colX := colPositions cellGapX row.d.x colWidths
    let placed := row.children.foldl
      (fun (acc : List (Option Box) × ℕ × ℚ) ch =>
        match ch with
        | some (.blockB cd ccs) =>
            if isCellBox (Box.blockB cd ccs) then
              let span := scanColspan ((cd.node.map NodeData.attrs).getD [])
              let colIdx := if acc.2.1 ≥ colX.length then colX.length - 1 else acc.2.1
              let w := ((List.range span).filterMap (fun j =>
                  if colIdx + j < colWidths.length then colWidths.get? (colIdx + j) else none)).sum +
                (if span > 1 then cellGapX * ((span : ℚ) - 1) else 0)
              let newX := (colX.get? colIdx).getD 0
              let newY := row.d.y
              let dx := newX - cd.x
              let dy := newY - cd.y
              let shifted := shiftDescendants dx dy ccs
              let cd1 := { cd with x := newX, y := newY, width := w }
              let hgt :=
                match shifted.getLast? with
                | some (some last) =>
                    let calcH := last.getY + last.getHeight - cd1.y
                    if calcH < 20 then 20 else calcH
                | _ => if cd1.height = (0 : ℚ) then (20 : ℚ) else cd1.height
              let cd2 := { cd1 with height := hgt }
              (acc.1 ++ [some (Box.blockB cd2 shifted)], acc.2.1 + span,
               if hgt > acc.2.2 then hgt else acc.2.2)
            else (acc.1 ++ [some (Box.blockB cd ccs)], acc.2.1, acc.2.2)
        | other => (acc.1 ++ [other], acc.2.1, acc.2.2))
      ([], 0, 0)
    let maxH := if placed.2.2 < 20 then 20 else placed.2.2
    { d := { row.d with height := maxH }, children := placed.1 }

/-- Model of `(*ImageBox).Layout`: size from the CSS `width`/`height`
when positive, else the 40-unit default square. -/
def imageLayout (containerWidth : ℚ) (st : ComputedStyle) : ℚ × ℚ :=
  let w := match styleGet st "width" with
    | some v =>
        if v ≠ "" then (if parseLength v containerWidth 40 > 0 then parseLength v containerWidth 40 else 40)
        else 40
    | none => 40
  let h := match styleGet st "height" with
    | some v =>
        if v ≠ "" then (if parseLength v containerWidth 40 > 0 then parseLength v containerWidth 40 else 40)
        else 40
    | none => 40
  (w, h)

/-- First `src` attribute (`for ... break`). -/
def findSrcAttr (attrs : List HAttr) : String :=
  match attrs.find? (fun a => equalFold a.key "src") with
  | some a => a.val
  | none => ""

/-! ### processNode (Box Builder / Block Formatter)

`Engine.processNode` appends boxes to the mutable parent container; the
model threads the container through.  `tblCtx` is the nearest enclosing
node whose tag folds to `table` (for the `Parent`-pointer walks), and
`parentNd` is the DOM parent of the node list being processed (for the
text branch's style lookup).  Debug printing is dropped.
-/

/-- The bottom edge of the last child, or a default when the child list
is empty (a `nil` last child would make Go panic; layout trees have
none). -/
def lastBottom (cs : List (Option Box)) (deflt : ℚ) : ℚ :=
  match cs.getLast? with
  | some (some last) => last.getY + last.getHeight
  | _ => deflt

/-- Parent height growth at the end of element processing (`if
parentBox.Y+parentBox.Height < lastChild bottom`). -/
def growParent (p : BlockB) : BlockB :=
  match p.children.getLast? with
  | none => p
  | some lastOpt =>
      let lb := match lastOpt with
        | some last => last.getY + last.getHeight
        | none => p.d.y
      if p.d.y + p.d.height < lb then { p with d := { p.d with height := lb - p.d.y } } else p

mutual

/-- Model of `Engine.processNode`. -/
def processNode (styles : StyleMap) (measure : Measure) (tblCtx : Option HNode)
    (node : HNode) (parentNd : Option NodeData) (parent : BlockB) : BlockB :=
  match node with
  | .mk nd ncs =>
    match nd.ntype with
    | .comment => parent
    | .doctype => parent
    | .document => processNodes styles measure tblCtx ncs (some nd) parent
    | .text =>
        if trimSpace nd.data = "" then parent
        else
          let eff0 : ComputedStyle := match parent.d.node with
            | some pn => (styles pn.nid).getD []
            | none => []
          let eff1 := match parentNd with
            | some pd =>
                match styles pd.nid with
                | some ps => mergeStyles eff0 ps
                | none => eff0
            | none => eff0
          let eff2 := styleSetDefault eff1 "color" "#000000"
          let eff3 := styleSetDefault eff2 "font-size" "16px"
          let fontSizeVal := match styleGet eff3 "font-size" with
            | some v => if v ≠ "" then v else "16"
            | none => "16"
          let fontSize := parseLength fontSizeVal 0 16
          let childY := lastBottom parent.children
            (parent.d.y + parent.d.paddingTop + parent.d.borderTop)
          let lineHeight := match styleGet eff3 "line-height" with
            | some v => if trimSpace v ≠ "" then parseLength v 0 (5/4 * fontSize)
                else 5/4 * fontSize
            | none => 5/4 * fontSize
          let contentX := parent.d.x + parent.d.paddingLeft + parent.d.borderLeft
          let contentW0 := parent.d.width - parent.d.paddingLeft - parent.d.paddingRight -
            parent.d.borderLeft - parent.d.borderRight
          let contentW := if contentW0 < 0 then 0 else contentW0
          let ib : Box := .inlineB
            { BoxData.zero with
              node := some nd
              style := eff3
              x := contentX
              y := childY
              width := contentW
              height := lineHeight } (trimSpace nd.data) []
          { parent with children := parent.children ++ [some ib] }
    | .element =>
        if strToLower nd.data = "script" ∨ strToLower nd.data = "style" then parent
        else
          let tagName := strToLower nd.data
          let parentStyle : ComputedStyle := match parent.d.node with
            | some pn => (styles pn.nid).getD []
            | none => []
          let nodeStyle := match styles nd.nid with
            | some ts => mergeStyles parentStyle ts
            | none => parentStyle
          let isBlock0 := isBlockTag tagName
          let isBlock := match styleGet nodeStyle "display" with
            | some dv =>
                if dv = "block" ∨ dv = "flex" ∨ dv = "grid" then true
                else if dv = "inline" ∨ dv = "inline-block" then false
                else isBlock0
            | none => isBlock0
          if tagName = "img" then
            let childY := lastBottom parent.children parent.d.y
            let src := findSrcAttr nd.attrs
            let wh := imageLayout parent.d.width nodeStyle
            let img : Box := .imageB
              { BoxData.zero with
                node := some nd
                style := nodeStyle
                x := parent.d.x
                y := childY
                width := wh.1
                height := wh.2 } src
            { parent with children := parent.children ++ [some img] }
          else if isBlock then
            let childY := lastBottom parent.children parent.d.y
            let blk0 : BlockB :=
              { d := { BoxData.zero with
                  node := some nd
                  style := nodeStyle
                  x := parent.d.x
                  y := childY
                  width := parent.d.width
                  height := 30 }
                children := [] }
            if equalFold nd.data "p" then
              let blk1 := layoutParagraphInline styles measure (.mk nd ncs) blk0 nodeStyle
              { parent with children := parent.children ++ [some blk1.toBox] }
            else
              let tblCtx2 := if equalFold nd.data "table" then some (.mk nd ncs) else tblCtx
              let blk1 := processNodes styles measure tblCtx2 ncs (some nd) blk0
              let blk2 :=
                if equalFold nd.data "tr" then
                  layoutTableRow styles tblCtx (.mk nd ncs) blk1
                else if blk1.children.isEmpty then
                  { blk1 with d := { blk1.d with height := 20 } }
                else
                  { blk1 with d := { blk1.d with
                      height := lastBottom blk1.children blk1.d.y - blk1.d.y } }
              growParent { parent with children := parent.children ++ [some blk2.toBox] }
          else
            let childY := lastBottom parent.children parent.d.y
            let ib : Box := .inlineB
              { BoxData.zero with
                node := some nd
                style := nodeStyle
                x := parent.d.x
                y := childY
                width := parent.d.width
                height := 20 } "" []
            let parent1 := { parent with children := parent.children ++ [some ib] }
            let tblCtx2 := if equalFold nd.data "table" then some (.mk nd ncs) else tblCtx
            growParent (processNodes styles measure tblCtx2 ncs (some nd) parent1)

/-- Sequential processing of a node list into the same container. -/
def processNodes (styles : StyleMap) (measure : Measure) (tblCtx : Option HNode) :
    List HNode → Option NodeData → BlockB → BlockB
  | [], _, parent => parent
  | n :: rest, pnd, parent =>
      processNodes styles measure tblCtx rest pnd
        (processNode styles measure tblCtx n pnd parent)

end

end GomPDF

namespace GomPDF

/-! ### C7 / C8: inline-formatter claims -/

/-- A width oracle for the concrete instances: ten units per rune. -/
def exMeasure : Measure := fun s _ _ => (s.toList.length : ℚ) * 10

/-- A word token at font-size 16 and line-height 19.2. -/
def mkWordTok (t : String) (w : ℚ) : Tok :=
  { text := t, style := [], width := w, isSpace := false, fs := 16, lh := 96/5 }

/-- A ten-unit space token at the same metrics. -/
def mkSpTok : Tok :=
  { text := " ", style := [], width := 10, isSpace := true, fs := 16, lh := 96/5 }

/-- The tokenized paragraph `The quick brown fox` (words 30/50/50/30 units
wide, spaces 10). -/
def c7Raw : List Tok :=
  [mkWordTok "The" 30, mkSpTok, mkWordTok "quick" 50, mkSpTok,
   mkWordTok "brown" 50, mkSpTok, mkWordTok "fox" 30]

/-- C7: in the greedy-wrap loop, when a pending space plus the next word
overflow the line, the `continue` after `emitLine()` skips the rest of
the loop body, so the word that should open the next line is discarded:
wrapping `The quick brown fox` at width 100 emits `The quick` and then
`fox` — `brown` appears in the input tokens and on no line. -/
theorem greedy_wrap_drops_word_after_line_break :
    ((layoutParagraphTokens exMeasure [] 0 100 0 c7Raw).1.map
      (fun b => (b.textOf).getD "")) = ["The", " ", "quick", "fox"] ∧
    (c7Raw.map Tok.text).contains "brown" = true ∧
    (((layoutParagraphTokens exMeasure [] 0 100 0 c7Raw).1.map
      (fun b => (b.textOf).getD "")).contains "brown") = false := by
  refine ⟨by decide, by decide, by decide⟩

theorem placeTokens_length (sx bY lh : ℚ) :
    ∀ (x : ℚ) (toks : List Tok), (placeTokens sx bY lh x toks).length = toks.length
  | _, [] => rfl
  | x, tk :: rest => by
      simp [placeTokens, placeTokens_length sx bY lh (x + tk.width) rest]

theorem placeTokens_spec (sx bY lh : ℚ) :
    ∀ (x : ℚ) (toks : List Tok),
      ∀ pr ∈ (placeTokens sx bY lh x toks).zip toks,
        pr.1.getY = bY - pr.2.fs ∧ pr.1.getHeight = lh
  | x, [], pr, h => absurd h (by simp [placeTokens])
  | x, tk :: rest, pr, h => by
      rw [placeTokens, List.zip_cons_cons, List.mem_cons] at h
      rcases h with h | h
      · subst h
        exact ⟨by simp [Box.getY, Box.dat], by simp [Box.getHeight, Box.dat]⟩
      · exact placeTokens_spec sx bY lh (x + tk.width) rest pr h

/-- C8: for every nonempty token line the inline formatter emits, with
`toks` its effective tokens (a trailing space dropped): the advanced
`curY` — the next line's top, hence the next baseline's offset — grows by
exactly `max(font-size) + max(line-height − font-size)`; one box is
emitted per token; and every box satisfies `top + own font-size =
line top + max(font-size)` (the shared baseline) with height
`max(font-size) + max(line-height − font-size)`. -/
theorem emitLine_baseline_and_height (containerStyle : ComputedStyle)
    (startX maxWidth : ℚ) (line : List Tok) (lineWidth curY : ℚ)
    (hne : line ≠ []) :
    ((emitLineModel containerStyle startX maxWidth line lineWidth curY).2 =
      curY + (lineMaxFs (effLineTokens line) + lineMaxLead (effLineTokens line))) ∧
    ((emitLineModel containerStyle startX maxWidth line lineWidth curY).1.length =
      (effLineTokens line).length) ∧
    (∀ pr ∈ (emitLineModel containerStyle startX maxWidth line lineWidth curY).1.zip
        (effLineTokens line),
      pr.1.getY + pr.2.fs = curY + lineMaxFs (effLineTokens line) ∧
      pr.1.getHeight = lineMaxFs (effLineTokens line) + lineMaxLead (effLineTokens line)) := by
  rw [emitLineModel, if_neg hne]
  refine ⟨rfl, placeTokens_length _ _ _ _ _, ?_⟩
  intro pr h
  have hs := placeTokens_spec startX (curY + lineMaxFs (effLineTokens line))
    (lineMaxFs (effLineTokens line) + lineMaxLead (effLineTokens line)) _ _ pr h
  exact ⟨by rw [hs.1]; ring, hs.2⟩

/-- C8 witness: the baseline theorem at a concrete two-word line with
font-size 16 and line-height 19.2 — the line advances `curY` by 19.2, so
a second line's baseline sits 19.2 below the first. -/
theorem emitLine_baseline_and_height_witness :
    ([mkWordTok "Hello" 50, mkSpTok, mkWordTok "world" 50] : List Tok) ≠ [] ∧
    ((emitLineModel [] 0 1000 [mkWordTok "Hello" 50, mkSpTok, mkWordTok "world" 50]
          110 0).2 =
      0 + (lineMaxFs (effLineTokens [mkWordTok "Hello" 50, mkSpTok, mkWordTok "world" 50]) +
        lineMaxLead (effLineTokens [mkWordTok "Hello" 50, mkSpTok, mkWordTok "world" 50]))) ∧
    (lineMaxFs (effLineTokens [mkWordTok "Hello" 50, mkSpTok, mkWordTok "world" 50]) +
      lineMaxLead (effLineTokens [mkWordTok "Hello" 50, mkSpTok, mkWordTok "world" 50])) = 96/5 :=
  ⟨by decide,
   (emitLine_baseline_and_height [] 0 1000
     [mkWordTok "Hello" 50, mkSpTok, mkWordTok "world" 50] 110 0 (by decide)).1,
   by decide⟩

end GomPDF

namespace GomPDF

/-! ### C6: header-driven table column widths -/

/-- The column widths as the specification words them: a column covered
by a cell of the governing row that declares a width gets `width/span`;
the columns with no declared width split the remaining width — row
content width minus the inter-column gaps minus the declared widths —
evenly. -/
def specColumnWidths (specs : List ColSpec) (totalWidth gap : ℚ) : List ℚ :=
  let cols : ℕ := (specs.map ColSpec.span).sum
  let effective := totalWidth - gap * ((cols : ℚ) - 1)
  let declaredTotal := ((specs.filter (fun s => s.hasWidth)).map ColSpec.width).sum
  let undeclared : ℕ := ((specs.filter (fun s => ¬ s.hasWidth)).map ColSpec.span).sum
  (specs.map (fun s => List.replicate s.span
    (if s.hasWidth then s.width / (s.span : ℚ)
     else (effective - declaredTotal) / (undeclared : ℚ)))).flatten

theorem filter_replicate_eq {α : Type} (p : α → Bool) (a : α) :
    ∀ n, (List.replicate n a).filter p = if p a then List.replicate n a else [] := by
  intro n
  induction n with
  | zero => simp
  | succ n ih => by_cases h : p a <;> simp [List.replicate_succ, List.filter_cons, h, ih]

theorem scanTR_foldl_inv (styles : StyleMap) (w : ℚ) :
    ∀ (l : List HNode) (acc : List ColSpec × ℕ),
      acc.2 = (acc.1.map ColSpec.span).sum →
      (l.foldl (scanTRStep styles w) acc).2 =
        ((l.foldl (scanTRStep styles w) acc).1.map ColSpec.span).sum
  | [], _, h => h
  | c :: rest, acc, h => by
      rw [List.foldl_cons]
      apply scanTR_foldl_inv
      rw [scanTRStep]
      split
      · simp [h]
      · exact h

theorem scanTR_spanSum (styles : StyleMap) (w : ℚ) (tr : HNode) :
    (scanTR styles w tr).2 = ((scanTR styles w tr).1.map ColSpec.span).sum := by
  rw [scanTR]
  exact scanTR_foldl_inv styles w tr.children ([], 0) rfl

theorem theadScanTRs_spanSum (styles : StyleMap) (w : ℚ) :
    ∀ l : List HNode,
      (theadScanTRs styles w l).2 = ((theadScanTRs styles w l).1.map ColSpec.span).sum
  | [] => rfl
  | tr :: rest => by
      rw [theadScanTRs]
      split
      · dsimp only
        split
        · exact theadScanTRs_spanSum styles w rest
        · exact scanTR_spanSum styles w tr
      · exact theadScanTRs_spanSum styles w rest

theorem theadFirstSpecs_go_spanSum (styles : StyleMap) (w : ℚ) :
    ∀ l : List HNode,
      (theadFirstSpecs.go styles w l).2 =
        ((theadFirstSpecs.go styles w l).1.map ColSpec.span).sum
  | [] => rfl
  | n :: rest => by
      rw [theadFirstSpecs.go]
      split
      · dsimp only
        split
        · exact theadFirstSpecs_go_spanSum styles w rest
        · exact theadScanTRs_spanSum styles w n.children
      · exact theadFirstSpecs_go_spanSum styles w rest

theorem theadFirstSpecs_spanSum (styles : StyleMap) (w : ℚ) (tbl : HNode) :
    (theadFirstSpecs styles w tbl).2 =
      ((theadFirstSpecs styles w tbl).1.map ColSpec.span).sum :=
  theadFirstSpecs_go_spanSum styles w tbl.children

theorem totalDeclared_eq_declaredSum (specs : List ColSpec)
    (hspan : ∀ s ∈ specs, 0 < s.span) :
    (specs.map (fun s =>
      if s.hasWidth then (s.span : ℚ) * (s.width / (s.span : ℚ)) else 0)).sum =
    ((specs.filter (fun s => s.hasWidth)).map ColSpec.width).sum := by
  induction specs with
  | nil => rfl
  | cons s rest ih =>
      have hs : (s.span : ℚ) ≠ 0 := by
        exact_mod_cast (hspan s (List.mem_cons_self s rest)).ne'
      have ih' := ih (fun t ht => hspan t (List.mem_cons_of_mem _ ht))
      by_cases hw : s.hasWidth
      · simp [List.filter_cons, hw, ih', mul_div_cancel₀ _ hs]
      · simp [List.filter_cons, hw, ih']

theorem zeroCount_block (s : ColSpec)
    (hpos : s.hasWidth = true → 0 < s.width) (hspan : 0 < s.span) :
    ((List.replicate s.span
        (if s.hasWidth = true then s.width / (s.span : ℚ) else 0)).filter
      (fun w => decide (w = 0))).length =
    (if s.hasWidth = true then 0 else s.span) := by
  by_cases hw : s.hasWidth = true
  · rw [if_pos hw, if_pos hw, filter_replicate_eq]
    have h1 : 0 < s.width := hpos hw
    have h2 : (0 : ℚ) < (s.span : ℚ) := by exact_mod_cast hspan
    rw [if_neg]
    · simp
    · simp [ne_of_gt (div_pos h1 h2)]
  · rw [if_neg hw, if_neg hw, filter_replicate_eq, if_pos]
    · simp
    · simp

theorem zeroCount_eq_undeclaredSum (specs : List ColSpec)
    (hpos : ∀ s ∈ specs, s.hasWidth = true → 0 < s.width)
    (hspan : ∀ s ∈ specs, 0 < s.span) :
    (((specs.map (fun s => List.replicate s.span
        (if s.hasWidth then s.width / (s.span : ℚ) else 0))).flatten).filter
      (fun w => w = 0)).length =
    ((specs.filter (fun s => ¬ s.hasWidth)).map ColSpec.span).sum := by
  induction specs with
  | nil => rfl
  | cons s rest ih =>
      have ih' := ih (fun t ht h => hpos t (List.mem_cons_of_mem _ ht) h)
        (fun t ht => hspan t (List.mem_cons_of_mem _ ht))
      rw [List.map_cons, List.flatten_cons, List.filter_append, List.length_append]
      rw [show ((List.replicate s.span
          (if s.hasWidth = true then s.width / (s.span : ℚ) else 0)).filter
            (fun w => decide (w = 0))).length =
          (if s.hasWidth = true then 0 else s.span) from
        zeroCount_block s (hpos s (List.mem_cons_self s rest))
          (hspan s (List.mem_cons_self s rest))]
      rw [List.filter_cons]
      by_cases hw : s.hasWidth = true
      · rw [if_pos hw, ih']
        simp [hw]
      · rw [if_neg hw, ih']
        simp [hw]

end GomPDF

namespace GomPDF

theorem qmax_zero_of_nonneg {x : ℚ} (h : 0 ≤ x) : qmax 0 x = x := by
  rw [qmax]
  split
  · rfl
  · linarith

theorem assignColWidths_eq_spec (specs : List ColSpec) (totalWidth gap : ℚ)
    (hpos : ∀ s ∈ specs, s.hasWidth = true → 0 < s.width)
    (hspan : ∀ s ∈ specs, 0 < s.span)
    (hfit : ((specs.filter (fun s => s.hasWidth)).map ColSpec.width).sum ≤
      totalWidth - gap * (((specs.map ColSpec.span).sum : ℚ) - 1)) :
    assignColWidths specs (totalWidth - gap * (((specs.map ColSpec.span).sum : ℚ) - 1)) =
    specColumnWidths specs totalWidth gap := by
  simp only [assignColWidths, specColumnWidths]
  rw [totalDeclared_eq_declaredSum specs hspan]
  rw [if_neg (not_lt.2 (sub_nonneg.2 hfit))]
  rw [zeroCount_eq_undeclaredSum specs hpos hspan]
  by_cases hU : 0 < ((specs.filter (fun s => ¬ s.hasWidth)).map ColSpec.span).sum
  · rw [if_pos hU]
    rw [List.map_flatten, List.map_map]
    apply congrArg List.flatten
    apply List.map_congr_left
    intro s hs
    simp only [Function.comp]
    by_cases hw : s.hasWidth = true
    · rw [if_pos hw, if_pos hw, List.map_replicate]
      have h1 : 0 < s.width := hpos s hs hw
      have h2 : (0 : ℚ) < (s.span : ℚ) := by exact_mod_cast hspan s hs
      rw [if_neg (ne_of_gt (div_pos h1 h2))]
    · rw [if_neg hw, if_neg hw, List.map_replicate, if_pos rfl]
  · rw [if_neg hU]
    have hall : ∀ s ∈ specs, s.hasWidth = true := by
      intro s hs
      by_contra hns
      apply hU
      have hmem : s ∈ specs.filter (fun s => ¬ s.hasWidth) := by
        rw [List.mem_filter]
        exact ⟨hs, by simpa using hns⟩
      have hle : s.span ≤ ((specs.filter (fun s => ¬ s.hasWidth)).map ColSpec.span).sum :=
        List.single_le_sum (fun x _ => Nat.zero_le x) _ (List.mem_map_of_mem ColSpec.span hmem)
      exact Nat.lt_of_lt_of_le (hspan s hs) hle
    apply congrArg List.flatten
    apply List.map_congr_left
    intro s hs
    rw [if_pos (hall s hs), if_pos (hall s hs)]

/-- C6: for every row of a table whose `<thead>` first scans to cell
specs with at least one column, the computed per-column widths are fully
determined by the header row's declarations — the body row's own cells
(`rn`, `rowChildren`, arbitrary here) are ignored: a declared cell
contributes `width/span` to each column it spans, and the undeclared
columns split the remaining width (row content width minus the
inter-column gaps minus the declared total) evenly.  The hypotheses hold
for every scanned header row whose declared widths fit the row. -/
theorem thead_columns_determine_row_widths
    (styles : StyleMap) (tbl rn : HNode) (rowChildren : List (Option Box))
    (totalWidth gap : ℚ) (specs : List ColSpec) (cols : ℕ)
    (hscan : theadFirstSpecs styles totalWidth tbl = (specs, cols))
    (hcols : 0 < cols)
    (hpos : ∀ s ∈ specs, s.hasWidth = true → 0 < s.width)
    (hspan : ∀ s ∈ specs, 0 < s.span)
    (hfit : ((specs.filter (fun s => s.hasWidth)).map ColSpec.width).sum ≤
      totalWidth - gap * ((cols : ℚ) - 1)) :
    computeTableColumnWidths styles (some tbl) (some rn) rowChildren totalWidth gap =
      (specColumnWidths specs totalWidth gap, cols) := by
  have hsum : cols = (specs.map ColSpec.span).sum := by
    have h := theadFirstSpecs_spanSum styles totalWidth tbl
    rw [hscan] at h
    exact h
  have hone : (1 : ℚ) ≤ (cols : ℚ) := by exact_mod_cast hcols
  simp only [computeTableColumnWidths, hscan]
  rw [if_neg hcols.ne']
  rw [if_neg (show ¬ ((specs, cols).2 = 0) from hcols.ne')]
  dsimp only
  rw [qmax_zero_of_nonneg (by linarith)]
  rw [Prod.mk.injEq]
  refine ⟨?_, rfl⟩
  have := assignColWidths_eq_spec specs totalWidth gap hpos hspan (by rw [← hsum]; exact hfit)
  rw [← hsum] at this
  exact this

end GomPDF

namespace GomPDF

/-- Element node with no attributes. -/
def elemNode (nid : Nat) (tag : String) (cs : List HNode) : HNode :=
  .mk { nid := nid, ntype := .element, data := tag, attrs := [] } cs

/-- Scenario C header cells: `<th>` nodes declaring 60% and 40%. -/
def exTheadTh1 : HNode := elemNode 13 "th" []

def exTheadTh2 : HNode := elemNode 14 "th" []

def exTheadTr : HNode := elemNode 12 "tr" [exTheadTh1, exTheadTh2]

def exThead : HNode := elemNode 11 "thead" [exTheadTr]

/-- Scenario C body row: its own cells declare 50%/50%, which must lose. -/
def exBodyTd1 : HNode := elemNode 21 "td" []

def exBodyTd2 : HNode := elemNode 22 "td" []

def exBodyTr : HNode := elemNode 20 "tr" [exBodyTd1, exBodyTd2]

def exTable : HNode := elemNode 10 "table" [exThead, exBodyTr]

/-- Computed styles for Scenario C: header cells 60%/40%, body cells
50%/50%. -/
def exC6Styles : StyleMap := fun nid =>
  if nid = 13 then some [("width", "60%")]
  else if nid = 14 then some [("width", "40%")]
  else if nid = 21 then some [("width", "50%")]
  else if nid = 22 then some [("width", "50%")]
  else none

theorem thead_columns_determine_row_widths_witness :
    computeTableColumnWidths exC6Styles (some exTable) (some exBodyTr) [] 400 0 =
      ([240, 160], 2) :=
  (thead_columns_determine_row_widths exC6Styles exTable exBodyTr [] 400 0
      [⟨240, 1, true⟩, ⟨160, 1, true⟩] 2
      (by decide) (by decide) (by decide) (by decide) (by decide)).trans (by decide)

end GomPDF

namespace GomPDF

/-! ### C9: the block stacking invariant -/

/-- Adjacent-sibling stacking relation on a container's child slots: a
child's top edge equals the previous sibling's bottom edge (vacuous when
either slot is `nil`, which the live builder never appends). -/
def stackedPair : Option Box → Option Box → Prop
  | some a, some b => b.getY = a.getY + a.getHeight
  | _, _ => True

instance stackedPairDecidable : ∀ a b : Option Box, Decidable (stackedPair a b)
  | some a, some b => inferInstanceAs (Decidable (b.getY = a.getY + a.getHeight))
  | some _, none => inferInstanceAs (Decidable True)
  | none, _ => inferInstanceAs (Decidable True)

/-- A child list stacks vertically: every consecutive pair satisfies
`stackedPair`. -/
def Stacked (cs : List (Option Box)) : Prop := List.Chain' stackedPair cs

instance StackedDecidable : ∀ cs : List (Option Box), Decidable (Stacked cs)
  | [] => isTrue trivial
  | [a] => isTrue (List.chain'_singleton a)
  | a :: b :: rest =>
      match stackedPairDecidable a b, StackedDecidable (b :: rest) with
      | isTrue h1, isTrue h2 => isTrue (List.chain'_cons.mpr ⟨h1, h2⟩)
      | isFalse h1, _ => isFalse (fun hc => h1 (List.chain'_cons.mp hc).1)
      | _, isFalse h2 => isFalse (fun hc => h2 (List.chain'_cons.mp hc).2)

/-- Appending a box whose top is the list's `lastBottom` preserves
stacking (any default `d` serves: it is only read when the list has no
trailing box, where the new pair is vacuous). -/
theorem Stacked.append_box {cs : List (Option Box)} (h : Stacked cs) (b : Box) (d : ℚ)
    (hy : b.getY = lastBottom cs d) : Stacked (cs ++ [some b]) := by
  rw [Stacked, List.chain'_append]
  refine ⟨h, List.chain'_singleton _, ?_⟩
  intro x hx y hyy
  simp only [List.head?_cons, Option.mem_def, Option.some.injEq] at hyy
  subst hyy
  rw [Option.mem_def] at hx
  match x, hx with
  | none, _ => exact trivial
  | some a, hx =>
      show b.getY = a.getY + a.getHeight
      rw [hy, lastBottom, hx]

theorem growParent_children (p : BlockB) : (growParent p).children = p.children := by
  rw [growParent]
  cases p.children.getLast? with
  | none => rfl
  | some lastOpt =>
      dsimp only
      split <;> rfl

theorem growParent_y (p : BlockB) : (growParent p).d.y = p.d.y := by
  rw [growParent]
  cases p.children.getLast? with
  | none => rfl
  | some lastOpt =>
      dsimp only
      split <;> rfl

theorem layoutTableRow_y (styles : StyleMap) (ta : Option HNode) (rn : HNode)
    (row : BlockB) : (layoutTableRow styles ta rn row).d.y = row.d.y := by
  show (if ¬ (row.children.any (fun ch =>
      match ch with
      | some b => isCellBox b
      | none => false)) = true then row else _).d.y = row.d.y
  by_cases h : (row.children.any (fun ch =>
      match ch with
      | some b => isCellBox b
      | none => false)) = true
  · rw [if_neg (not_not_intro h)]
  · rw [if_pos h]

theorem layoutParagraphInline_y (styles : StyleMap) (measure : Measure) (pn : HNode)
    (c : BlockB) (bs : ComputedStyle) :
    (layoutParagraphInline styles measure pn c bs).d.y = c.d.y := rfl

theorem BlockB.toBox_getY (b : BlockB) : b.toBox.getY = b.d.y := rfl

end GomPDF

namespace GomPDF

mutual

/-- `processNode` never moves the container it appends into. -/
theorem processNode_y (styles : StyleMap) (measure : Measure) (tblCtx : Option HNode)
    (pnd : Option NodeData) :
    ∀ (node : HNode) (parent : BlockB),
      (processNode styles measure tblCtx node pnd parent).d.y = parent.d.y
  | .mk (.mk nid .comment dat attrs) ncs, parent => rfl
  | .mk (.mk nid .doctype dat attrs) ncs, parent => rfl
  | .mk (.mk nid .document dat attrs) ncs, parent =>
      processNodes_y styles measure tblCtx ncs _ parent
  | .mk (.mk nid .text dat attrs) ncs, parent => by
      rw [processNode]
      dsimp only
      split
      · rfl
      · rfl
  | .mk (.mk nid .element dat attrs) ncs, parent => by
      rw [processNode]
      dsimp only
      split
      · rfl
      · split
        · rfl
        · split
          · split
            · rfl
            · exact growParent_y _
          · exact (growParent_y _).trans (processNodes_y styles measure _ ncs _ _)

/-- `processNodes` never moves the container. -/
theorem processNodes_y (styles : StyleMap) (measure : Measure) (tblCtx : Option HNode) :
    ∀ (ns : List HNode) (pnd : Option NodeData) (parent : BlockB),
      (processNodes styles measure tblCtx ns pnd parent).d.y = parent.d.y
  | [], _, _ => rfl
  | n :: rest, pnd, parent => by
      rw [processNodes]
      exact (processNodes_y styles measure tblCtx rest pnd _).trans
        (processNode_y styles measure tblCtx pnd n parent)

end

end GomPDF

namespace GomPDF

/-- The element branch's `blk2` step — table-row layout, the empty
20-unit default, or the last-child height — never moves the block. -/
theorem finishBlock_y (styles : StyleMap) (tblCtx : Option HNode) (nd : NodeData)
    (ncs : List HNode) (blk1 : BlockB) :
    (if equalFold nd.data "tr" = true then
        layoutTableRow styles tblCtx (.mk nd ncs) blk1
      else if blk1.children.isEmpty = true then
        { blk1 with d := { blk1.d with height := 20 } }
      else
        { blk1 with d := { blk1.d with
            height := lastBottom blk1.children blk1.d.y - blk1.d.y } }).d.y
      = blk1.d.y := by
  split
  · exact layoutTableRow_y _ _ _ _
  · split <;> rfl

mutual

/-- One `processNode` call appends its boxes at the container's current
`lastBottom`, preserving the stacking invariant. -/
theorem processNode_stacked (styles : StyleMap) (measure : Measure)
    (tblCtx : Option HNode) (pnd : Option NodeData) :
    ∀ (node : HNode) (parent : BlockB), Stacked parent.children →
      Stacked (processNode styles measure tblCtx node pnd parent).children
  | .mk (.mk nid .comment dat attrs) ncs, parent, h => h
  | .mk (.mk nid .doctype dat attrs) ncs, parent, h => h
  | .mk (.mk nid .document dat attrs) ncs, parent, h =>
      processNodes_stacked styles measure tblCtx ncs _ parent h
  | .mk (.mk nid .text dat attrs) ncs, parent, h => by
      rw [processNode]
      dsimp only
      split
      · exact h
      · exact Stacked.append_box h _
          (parent.d.y + parent.d.paddingTop + parent.d.borderTop) rfl
  | .mk (.mk nid .element dat attrs) ncs, parent, h => by
      rw [processNode]
      dsimp only
      split
      · exact h
      · split
        · exact Stacked.append_box h _ parent.d.y rfl
        · split
          · split
            · exact Stacked.append_box h _ parent.d.y
                ((BlockB.toBox_getY _).trans (layoutParagraphInline_y _ _ _ _ _))
            · rw [growParent_children]
              refine Stacked.append_box h _ parent.d.y ?_
              rw [BlockB.toBox_getY]
              exact (finishBlock_y styles tblCtx ⟨nid, .element, dat, attrs⟩ ncs _).trans
                (processNodes_y styles measure _ ncs _ _)
          · rw [growParent_children]
            exact processNodes_stacked styles measure _ ncs _ _
              (Stacked.append_box h _ parent.d.y rfl)

/-- Sequential processing preserves the stacking invariant. -/
theorem processNodes_stacked (styles : StyleMap) (measure : Measure)
    (tblCtx : Option HNode) :
    ∀ (ns : List HNode) (pnd : Option NodeData) (parent : BlockB),
      Stacked parent.children →
      Stacked (processNodes styles measure tblCtx ns pnd parent).children
  | [], _, _, h => h
  | n :: rest, pnd, parent, h => by
      rw [processNodes]
      exact processNodes_stacked styles measure tblCtx rest pnd _
        (processNode_stacked styles measure tblCtx pnd n parent h)

end

end GomPDF

namespace GomPDF

/-- A concrete container with two already-stacked children. -/
def exStackRoot : BlockB :=
  { d := { BoxData.zero with width := 200 }
    children := [some (Box.blockB { BoxData.zero with width := 200, height := 12 } []),
      some (Box.blockB { BoxData.zero with y := 12, width := 200, height := 5 } [])] }

def exDivA : HNode := elemNode 30 "div" []

def exDivB : HNode := elemNode 31 "div" []

def exNoStyles : StyleMap := fun _ => none

/-- C9: the block formatter stacks a container's children.  If the
container's existing children already stack — each child's top edge
equals the previous sibling's bottom edge — then after `processNodes`
lays out any node list into the container they still stack: every
appended box (text line container, image, block or inline stub) is
placed at the container's current `lastBottom`, and no margin term is
added between siblings (margins are not collapsed — the builder ignores
them entirely when stacking). -/
theorem block_children_stack (styles : StyleMap) (measure : Measure)
    (tblCtx : Option HNode) (ns : List HNode) (pnd : Option NodeData)
    (parent : BlockB) (h : Stacked parent.children) :
    Stacked (processNodes styles measure tblCtx ns pnd parent).children :=
  processNodes_stacked styles measure tblCtx ns pnd parent h

theorem block_children_stack_witness :
    Stacked exStackRoot.children ∧
      Stacked (processNodes exNoStyles exMeasure none [exDivA, exDivB] none
        exStackRoot).children :=
  ⟨by decide, block_children_stack exNoStyles exMeasure none [exDivA, exDivB] none
    exStackRoot (by decide)⟩

end GomPDF

namespace GomPDF

/-! ### C5: margin-respecting placement -/

/-- A box respects the page margins, or is oversized and pinned at the
top margin. -/
def boxOK (H mTop mBot : ℚ) (b : Box) : Prop :=
  (mTop ≤ b.getY ∧ b.getY + b.getHeight ≤ H - mBot) ∨
    (H - mTop - mBot < b.getHeight ∧ b.getY = mTop)

/-- A page has the paginator's height and margin-respecting boxes. -/
def pageOK (ps : PageSize) (m : Margins) (pg : Page) : Prop :=
  pg.height = ps.height ∧ ∀ b ∈ pg.boxes, boxOK ps.height m.top m.bottom b

theorem foldl_preserve {α β : Type} (P : α → Prop) (f : α → β → α)
    (h : ∀ a b, P a → P (f a b)) :
    ∀ (l : List β) (a : α), P a → P (l.foldl f a)
  | [], _, ha => ha
  | b :: bs, a, ha => foldl_preserve P f h bs (f a b) (h a b ha)

theorem mem_setIdx {α : Type} :
    ∀ (i : ℕ) (a : α) (l : List α) (x : α), x ∈ setIdx i a l → x = a ∨ x ∈ l
  | _, _, [], x, hx => by rw [setIdx] at hx; exact Or.inr hx
  | 0, a, y :: ys, x, hx => by
      simp only [setIdx] at hx
      rcases List.mem_cons.mp hx with h | h
      · exact Or.inl h
      · exact Or.inr (List.mem_cons_of_mem _ h)
  | n + 1, a, y :: ys, x, hx => by
      simp only [setIdx] at hx
      rcases List.mem_cons.mp hx with h | h
      · exact Or.inr (h ▸ List.mem_cons_self _ _)
      · rcases mem_setIdx n a ys x h with h2 | h2
        · exact Or.inl h2
        · exact Or.inr (List.mem_cons_of_mem _ h2)

theorem mem_modifyIdx {α : Type} (f : α → α) :
    ∀ (i : ℕ) (l : List α) (x : α), x ∈ modifyIdx f i l → x ∈ l ∨ ∃ y ∈ l, x = f y
  | _, [], x, hx => by rw [modifyIdx] at hx; exact Or.inl hx
  | 0, y :: ys, x, hx => by
      simp only [modifyIdx] at hx
      rcases List.mem_cons.mp hx with h | h
      · exact Or.inr ⟨y, List.mem_cons_self _ _, h⟩
      · exact Or.inl (List.mem_cons_of_mem _ h)
  | n + 1, y :: ys, x, hx => by
      simp only [modifyIdx] at hx
      rcases List.mem_cons.mp hx with h | h
      · exact Or.inl (h ▸ List.mem_cons_self _ _)
      · rcases mem_modifyIdx f n ys x h with h2 | ⟨z, hz, he⟩
        · exact Or.inl (List.mem_cons_of_mem _ h2)
        · exact Or.inr ⟨z, List.mem_cons_of_mem _ hz, he⟩

theorem setIdx_length {α : Type} (a : α) :
    ∀ (i : ℕ) (l : List α), (setIdx i a l).length = l.length
  | _, [] => by rw [setIdx]
  | 0, _ :: _ => by rw [setIdx]; rfl
  | n + 1, y :: ys => by simp only [setIdx, List.length_cons, setIdx_length a n ys]

theorem modifyIdx_length {α : Type} (f : α → α) :
    ∀ (i : ℕ) (l : List α), (modifyIdx f i l).length = l.length
  | _, [] => by rw [modifyIdx]
  | 0, _ :: _ => by rw [modifyIdx]; rfl
  | n + 1, y :: ys => by simp only [modifyIdx, List.length_cons, modifyIdx_length f n ys]

theorem insertByLess_perm {α : Type} (less : α → α → Bool) (a : α) :
    ∀ l : List α, List.Perm (insertByLess less a l) (a :: l)
  | [] => List.Perm.refl _
  | b :: bs => by
      rw [insertByLess]
      split
      · exact (List.Perm.cons b (insertByLess_perm less a bs)).trans
          (List.Perm.swap a b bs)
      · exact List.Perm.refl _

theorem sortByLess_perm {α : Type} (less : α → α → Bool) :
    ∀ l : List α, List.Perm (sortByLess less l) l
  | [] => List.Perm.refl _
  | a :: as => (insertByLess_perm less a _).trans (List.Perm.cons a (sortByLess_perm less as))

theorem shiftSubtreeBox_getY (b : Box) (dx dy : ℚ) :
    (shiftSubtreeBox b dx dy).getY = b.getY := by cases b <;> rfl

theorem shiftSubtreeBox_getHeight (b : Box) (dx dy : ℚ) :
    (shiftSubtreeBox b dx dy).getHeight = b.getHeight := by cases b <;> rfl

theorem setPosition_getY (b : Box) (nx ny : ℚ) : (b.setPosition nx ny).getY = ny := by
  cases b <;> rfl

theorem setPosition_getHeight (b : Box) (nx ny : ℚ) :
    (b.setPosition nx ny).getHeight = b.getHeight := by cases b <;> rfl

theorem cloneBox_getHeight (b : Box) : (cloneBox b).getHeight = b.getHeight := by
  cases b <;> rfl

theorem cloneBox_getY (b : Box) : (cloneBox b).getY = b.getY := by
  cases b <;> rfl

theorem headD_mem {α : Type} (l : List α) (d : α) (h : l ≠ []) : l.headD d ∈ l := by
  cases l with
  | nil => exact absurd rfl h
  | cons a as => exact List.mem_cons_self a as

end GomPDF

namespace GomPDF

/-- The distribution invariant: a nonempty page list whose pages all have
the paginator's height and margin-respecting boxes. -/
def DistInv (ps : PageSize) (m : Margins) (st : DistState) : Prop :=
  st.pages ≠ [] ∧ ∀ pg ∈ st.pages, pageOK ps m pg

theorem growPagesBase_subset (bw bh : ℚ) (pages : List Page) (idx : ℤ) :
    ∀ pg ∈ growPagesBase bw bh pages idx,
      pg ∈ pages ∨ pg = { width := bw, height := bh, boxes := [] } := by
  intro pg hpg
  rw [growPagesBase] at hpg
  split at hpg
  · exact Or.inl hpg
  · rcases List.mem_append.mp hpg with h | h
    · exact Or.inl h
    · exact Or.inr (List.eq_of_mem_replicate h)

theorem growPagesBase_ne_nil (bw bh : ℚ) (pages : List Page) (idx : ℤ)
    (h : pages ≠ []) : growPagesBase bw bh pages idx ≠ [] := by
  rw [growPagesBase]
  split
  · exact h
  · exact fun hc => h (List.append_eq_nil.mp hc).1

theorem growPages_subset (ps : PageSize) (pages : List Page) (idx : ℤ) :
    ∀ pg ∈ growPages ps pages idx, pg ∈ pages ∨ pg = newPageGo ps := by
  intro pg hpg
  rw [growPages] at hpg
  split at hpg
  · exact Or.inl hpg
  · rcases List.mem_append.mp hpg with h | h
    · exact Or.inl h
    · exact Or.inr (List.eq_of_mem_replicate h)

theorem growPages_ne_nil (ps : PageSize) (pages : List Page) (idx : ℤ)
    (h : pages ≠ []) : growPages ps pages idx ≠ [] := by
  rw [growPages]
  split
  · exact h
  · exact fun hc => h (List.append_eq_nil.mp hc).1

theorem mem_appendAt (idx : ℕ) (b : Box) (pages : List Page) (pg : Page)
    (h : pg ∈ appendAt idx b pages) :
    pg ∈ pages ∨ ∃ pg0 ∈ pages, pg = { pg0 with boxes := pg0.boxes ++ [b] } := by
  rw [appendAt] at h
  rcases mem_modifyIdx _ idx pages pg h with h2 | ⟨y, hy, he⟩
  · exact Or.inl h2
  · exact Or.inr ⟨y, hy, he⟩

theorem appendAt_ne_nil (idx : ℕ) (b : Box) (pages : List Page) (h : pages ≠ []) :
    appendAt idx b pages ≠ [] := by
  intro hc
  apply h
  have := modifyIdx_length (fun pg => { pg with boxes := pg.boxes ++ [b] }) idx pages
  rw [appendAt] at hc
  rw [hc] at this
  exact List.length_eq_zero.mp this.symm

/-- Adequate fuel makes the target-advance loop exit by its condition:
the returned index places the box above the bottom margin. -/
theorem advanceTarget_le (mTop pageH mBot effH relY h : ℚ) (heff : 0 < effH) :
    ∀ (fuel : ℕ) (t0 : ℤ),
      (Int.ceil ((mTop + relY + h - (pageH - mBot)) / effH) - t0).toNat < fuel →
      mTop + (relY - ((advanceTarget mTop pageH mBot effH relY h fuel t0 : ℤ) : ℚ) * effH) + h ≤
        pageH - mBot
  | 0, t0, hf => absurd hf (by omega)
  | fuel + 1, t0, hf => by
      rw [advanceTarget]
      split
      · rename_i hcond
        refine advanceTarget_le mTop pageH mBot effH relY h heff fuel (t0 + 1) ?_
        have ht0 : t0 < Int.ceil ((mTop + relY + h - (pageH - mBot)) / effH) :=
          Int.lt_ceil.mpr ((lt_div_iff heff).mpr (by linarith))
        omega
      · rename_i hcond
        push_neg at hcond
        linarith

end GomPDF

namespace GomPDF

theorem pageOK_extend (ps : PageSize) (m : Margins) (pg0 : Page) (b : Box)
    (h0 : pageOK ps m pg0) (hb : boxOK ps.height m.top m.bottom b) :
    pageOK ps m { pg0 with boxes := pg0.boxes ++ [b] } := by
  refine ⟨h0.1, ?_⟩
  intro x hx
  rcases List.mem_append.mp hx with h | h
  · exact h0.2 x h
  · rw [List.mem_singleton.mp h]
    exact hb

theorem growPagesBase_inv (ps : PageSize) (m : Margins) (bw : ℚ) (pages : List Page)
    (idx : ℤ) (hne : pages ≠ []) (hpg : ∀ pg ∈ pages, pageOK ps m pg) :
    growPagesBase bw ps.height pages idx ≠ [] ∧
      ∀ pg ∈ growPagesBase bw ps.height pages idx, pageOK ps m pg := by
  refine ⟨growPagesBase_ne_nil bw ps.height pages idx hne, ?_⟩
  intro pg hmem
  rcases growPagesBase_subset bw ps.height pages idx pg hmem with h | he
  · exact hpg pg h
  · rw [he]
    exact ⟨rfl, fun b hb => absurd hb (List.not_mem_nil b)⟩

theorem distInv_append_mk (ps : PageSize) (m : Margins) (st1 : DistState)
    (A : List Nat) (idx : ℕ) (b : Box) (P : List Page) (hne : P ≠ [])
    (hpg : ∀ pg ∈ P, pageOK ps m pg) (hb : boxOK ps.height m.top m.bottom b) :
    DistInv ps m { st1 with pages := appendAt idx b P, added := A } :=
  ⟨appendAt_ne_nil idx b P hne, fun pg hmem => by
    rcases mem_appendAt idx b P pg hmem with h | ⟨pg0, hpg0, he⟩
    · exact hpg pg h
    · exact he ▸ pageOK_extend ps m pg0 b (hpg pg0 hpg0) hb⟩

theorem modifyIdx_ne_nil {α : Type} (f : α → α) (i : ℕ) (l : List α) (h : l ≠ []) :
    modifyIdx f i l ≠ [] := by
  intro hc
  apply h
  have hl := modifyIdx_length f i l
  rw [hc] at hl
  exact List.length_eq_zero.mp hl.symm

theorem pagesOK_filterIdx (ps : PageSize) (m : Margins) (subtree : List Nat)
    (pages : List Page) (hpg : ∀ pg ∈ pages, pageOK ps m pg) :
    ∀ pg ∈ modifyIdx (fun pg => if pg.boxes.length > 0 then
        { pg with boxes := filterSubtree subtree pg.boxes } else pg) 0 pages,
      pageOK ps m pg := by
  intro pg hmem
  rcases mem_modifyIdx _ 0 pages pg hmem with h | ⟨y, hy, he⟩
  · exact hpg pg h
  · subst he
    split
    · refine ⟨(hpg y hy).1, ?_⟩
      intro b hb
      rw [filterSubtree] at hb
      exact (hpg y hy).2 b (List.mem_filter.mp hb).1
    · exact hpg y hy

end GomPDF

namespace GomPDF

/-- The placement tail keeps every placed box within the margins (or
pinned at the top margin when taller than the usable height). -/
theorem distBoxPlace_inv (ps : PageSize) (m : Margins) (startY fmy : ℚ)
    (rowMap : List (ℕ × ℤ)) (k : ℤ) (hm : m.top + m.bottom < ps.height)
    (st1 : DistState) (i : ℕ) (box : Box) (hinv : DistInv ps m st1) :
    DistInv ps m (distBoxPlace m startY fmy rowMap k st1 i box) := by
  obtain ⟨hne, hpg⟩ := hinv
  have hbase : (st1.pages.headD dummyPage).height = ps.height :=
    (hpg _ (headD_mem _ _ hne)).1
  rw [distBoxPlace]
  dsimp only
  rw [hbase, cloneBox_getHeight]
  split
  · exact ⟨hne, hpg⟩
  · split
    · -- k > 0: advance to the target page and clamp at the top margin
      refine distInv_append_mk ps m _ _ _ _ _
        (growPagesBase_inv ps m _ st1.pages _ hne hpg).1
        (growPagesBase_inv ps m _ st1.pages _ hne hpg).2 ?_
      rw [boxOK, shiftSubtreeBox_getY, shiftSubtreeBox_getHeight,
        setPosition_getY, setPosition_getHeight, cloneBox_getHeight]
      split
      · rcases le_or_lt box.getHeight (ps.height - m.top - m.bottom) with hle | hgt
        · exact Or.inl ⟨le_refl _, by linarith⟩
        · exact Or.inr ⟨hgt, rfl⟩
      · rename_i hcl
        refine Or.inl ⟨not_lt.mp hcl, ?_⟩
        exact advanceTarget_le m.top ps.height m.bottom _ _ _ (by linarith) _ k
          (by rw [advanceFuel]; omega)
    · -- k ≤ 0: the clamp inside the near-bottom test splits first
      split
      · -- the normalized position clamps to the top margin
        split
        · -- near-bottom: moved to page 1 at the top margin
          refine distInv_append_mk ps m _ _ _ _ _
            (modifyIdx_ne_nil _ 0 _
              (growPagesBase_inv ps m _ st1.pages _ hne hpg).1)
            (pagesOK_filterIdx ps m _ _
              (growPagesBase_inv ps m _ st1.pages _ hne hpg).2) ?_
          rw [boxOK, shiftSubtreeBox_getY, shiftSubtreeBox_getHeight,
            setPosition_getY, setPosition_getHeight, cloneBox_getHeight]
          rcases le_or_lt box.getHeight (ps.height - m.top - m.bottom) with hle | hgt
          · exact Or.inl ⟨le_refl _, by linarith⟩
          · exact Or.inr ⟨hgt, rfl⟩
        · -- in-page at the top margin
          rename_i hcond
          refine distInv_append_mk ps m _ _ _ _ _ hne hpg ?_
          rw [boxOK, shiftSubtreeBox_getY, shiftSubtreeBox_getHeight,
            setPosition_getY, setPosition_getHeight, cloneBox_getHeight]
          push_neg at hcond
          exact Or.inl ⟨le_refl _, by linarith⟩
      · -- un-clamped normalized position
        rename_i hcl
        split
        · -- near-bottom: moved to page 1 at the top margin
          refine distInv_append_mk ps m _ _ _ _ _
            (modifyIdx_ne_nil _ 0 _
              (growPagesBase_inv ps m _ st1.pages _ hne hpg).1)
            (pagesOK_filterIdx ps m _ _
              (growPagesBase_inv ps m _ st1.pages _ hne hpg).2) ?_
          rw [boxOK, shiftSubtreeBox_getY, shiftSubtreeBox_getHeight,
            setPosition_getY, setPosition_getHeight, cloneBox_getHeight]
          rcases le_or_lt box.getHeight (ps.height - m.top - m.bottom) with hle | hgt
          · exact Or.inl ⟨le_refl _, by linarith⟩
          · exact Or.inr ⟨hgt, rfl⟩
        · -- in-page at the normalized position
          rename_i hcond
          refine distInv_append_mk ps m _ _ _ _ _ hne hpg ?_
          rw [boxOK, shiftSubtreeBox_getY, shiftSubtreeBox_getHeight,
            setPosition_getY, setPosition_getHeight, cloneBox_getHeight]
          push_neg at hcond
          exact Or.inl ⟨not_lt.mp hcl, by linarith⟩

end GomPDF

namespace GomPDF

theorem distBoxStep_inv (ps : PageSize) (m : Margins) (startY fmy : ℚ)
    (rowMap : List (ℕ × ℤ)) (k : ℤ) (hm : m.top + m.bottom < ps.height)
    (st : DistState) (ib : ℕ × Box) (hinv : DistInv ps m st) :
    DistInv ps m (distBoxStep m startY fmy rowMap k st ib) := by
  obtain ⟨hne, hpg⟩ := hinv
  rw [distBoxStep]
  dsimp only
  split
  · exact ⟨hne, hpg⟩
  · split
    · exact ⟨hne, hpg⟩
    · split
      · exact distBoxPlace_inv ps m startY fmy rowMap k hm _ ib.1 ib.2 ⟨hne, hpg⟩
      · exact distBoxPlace_inv ps m startY fmy rowMap k hm _ ib.1 ib.2 ⟨hne, hpg⟩

theorem distKey_inv (ps : PageSize) (m : Margins) (startY : ℚ)
    (rowMap : List (ℕ × ℤ)) (pageBoxes : PageBoxMap)
    (hm : m.top + m.bottom < ps.height) (st : DistState) (k : ℤ)
    (hinv : DistInv ps m st) :
    DistInv ps m (distKey m startY rowMap pageBoxes st k) := by
  obtain ⟨hne, hpg⟩ := hinv
  have hbase : (st.pages.headD dummyPage).height = ps.height :=
    (hpg _ (headD_mem _ _ hne)).1
  rw [distKey]
  split
  · exact ⟨hne, hpg⟩
  · dsimp only
    rw [hbase]
    refine foldl_preserve (DistInv ps m) _ ?_ _ _ ?_
    · intro a b ha
      exact distBoxStep_inv ps m startY _ rowMap k hm a b ha
    · exact ⟨(growPagesBase_inv ps m _ st.pages _ hne hpg).1,
        (growPagesBase_inv ps m _ st.pages _ hne hpg).2⟩

theorem distributeContentToPages_inv (ps : PageSize) (m : Margins) (startY : ℚ)
    (rowMap : List (ℕ × ℤ)) (pageBoxes : PageBoxMap) (keyOrder : List ℤ)
    (pages0 : List Page) (hm : m.top + m.bottom < ps.height)
    (hne : pages0 ≠ []) (hpg : ∀ pg ∈ pages0, pageOK ps m pg) :
    ∀ pg ∈ distributeContentToPages m startY rowMap pageBoxes keyOrder pages0,
      pageOK ps m pg := by
  rw [distributeContentToPages]
  exact (foldl_preserve (DistInv ps m) _
    (fun a b ha => distKey_inv ps m startY rowMap pageBoxes hm a b ha)
    keyOrder _ ⟨hne, hpg⟩).2

/-- The provisional-stage invariant: nonempty pages, all fresh and at the
paginator's height. -/
def ProvInvP (ps : PageSize) (st : ProvState) : Prop :=
  st.pages ≠ [] ∧ ∀ pg ∈ st.pages, pg.height = ps.height ∧ pg.boxes = []

theorem provisionalStep_inv (ps : PageSize) (pageHeight startY : ℚ)
    (st : ProvState) (ib : ℕ × Box) (h : ProvInvP ps st) :
    ProvInvP ps (provisionalStep ps pageHeight startY st ib) := by
  obtain ⟨hne, hpg⟩ := h
  rw [provisionalStep]
  dsimp only
  split
  · exact ⟨hne, hpg⟩
  · refine ⟨growPages_ne_nil ps st.pages _ hne, ?_⟩
    intro pg hmem
    rcases growPages_subset ps st.pages _ pg hmem with h | he
    · exact hpg pg h
    · rw [he]
      exact ⟨rfl, rfl⟩

theorem provStateOf_inv (ps : PageSize) (m : Margins) (root : Box) :
    ProvInvP ps (provStateOf ps m root) := by
  rw [provStateOf]
  dsimp only
  refine foldl_preserve (ProvInvP ps) _ ?_ _ _ ?_
  · intro a b ha
    exact provisionalStep_inv ps _ _ a b ha
  · constructor
    · intro hc
      exact List.cons_ne_nil (newPageGo ps) _ ((List.append_eq_nil.mp hc).1)
    · intro pg hmem
      rcases List.mem_append.mp hmem with h | h
      · rw [List.mem_singleton.mp h]
        exact ⟨rfl, rfl⟩
      · rw [List.eq_of_mem_replicate h]
        exact ⟨rfl, rfl⟩

end GomPDF

namespace GomPDF

theorem getD_mem {α : Type} (l : List α) (i : ℕ) (d : α) (h : i < l.length) :
    l.getD i d ∈ l := by
  rw [List.getD_eq_getElem l d h]
  exact List.getElem_mem h

/-- Under the margin invariant the per-page scan of the reflow pass walks
the boxes without touching anything: an oversized box sits exactly at the
top margin (its pin test fails) and every other box already ends above
the bottom threshold. -/
theorem reflowScanPage_noop (c : ReflowCtx) (i : ℕ) :
    ∀ (fuel j : ℕ) (pages : List Page) (moved : Bool),
      (∀ b ∈ (pages.getD i dummyPage).boxes, boxOK c.ph c.mTop c.mBot b) →
      (pages.getD i dummyPage).boxes.length - j < fuel →
      reflowScanPage c fuel i j pages moved = (pages, moved)
  | 0, j, pages, moved, hOK, hf => absurd hf (by omega)
  | fuel + 1, j, pages, moved, hOK, hf => by
      rw [reflowScanPage]
      dsimp only
      split
      · rename_i hj
        have hb := hOK ((pages.getD i dummyPage).boxes.get ⟨j, hj⟩) (List.get_mem _ j hj)
        split
        · rename_i hgt
          rw [if_neg ?hpin]
          case hpin =>
            rcases hb with ⟨h1, h2⟩ | ⟨h1, h2⟩
            · exfalso
              rw [ReflowCtx.availH] at hgt
              linarith
            · rw [h2]
              intro hcon
              linarith
          exact reflowScanPage_noop c i fuel (j + 1) pages moved hOK (by omega)
        · rename_i hgt
          rw [ReflowCtx.availH] at hgt
          push_neg at hgt
          rw [if_neg ?hmove]
          case hmove =>
            rcases hb with ⟨h1, h2⟩ | ⟨h1, h2⟩
            · intro hcon
              linarith
            · exfalso
              linarith
          exact reflowScanPage_noop c i fuel (j + 1) pages moved hOK (by omega)
      · rfl

end GomPDF

namespace GomPDF

/-- Under the margin invariant a sweep only re-sorts pages: nothing moves
and every box stays within the margins (or pinned). -/
theorem reflowSweep_noop (c : ReflowCtx) :
    ∀ (fuel i : ℕ) (pages : List Page),
      (∀ pg ∈ pages, ∀ b ∈ pg.boxes, boxOK c.ph c.mTop c.mBot b) →
      pages.length - i < fuel →
      (reflowSweep c fuel i pages false).2 = false ∧
        ∀ pg ∈ (reflowSweep c fuel i pages false).1, ∀ b ∈ pg.boxes,
          boxOK c.ph c.mTop c.mBot b
  | 0, i, pages, hOK, hf => absurd hf (by omega)
  | fuel + 1, i, pages, hOK, hf => by
      rw [reflowSweep]
      dsimp only
      split
      · rename_i hi
        have hOKi : ∀ b ∈ (pages.getD i dummyPage).boxes, boxOK c.ph c.mTop c.mBot b :=
          fun b hbm => hOK _ (getD_mem pages i dummyPage hi) b hbm
        have hL : (pages.getD i dummyPage).boxes.length - 0 <
            ((pages.getD i dummyPage).boxes.length + 1) *
              ((pages.getD i dummyPage).boxes.length + 2) + 1 := by
          have h1 : (pages.getD i dummyPage).boxes.length + 1 ≤
              ((pages.getD i dummyPage).boxes.length + 1) *
                ((pages.getD i dummyPage).boxes.length + 2) :=
            Nat.le_mul_of_pos_right _ (by omega)
          omega
        rw [reflowScanPage_noop c i _ 0 pages false hOKi hL]
        dsimp only
        have hOK2 : ∀ pg ∈ (if (pages.getD i dummyPage).boxes.length > 1 then
            setIdx i { pages.getD i dummyPage with
              boxes := sortByLess boxLess (pages.getD i dummyPage).boxes } pages
          else pages), ∀ b ∈ pg.boxes, boxOK c.ph c.mTop c.mBot b := by
          intro pg hmem
          split at hmem
          · rcases mem_setIdx i _ pages pg hmem with he | hin
            · subst he
              intro b hbm
              exact hOKi b (((sortByLess_perm boxLess _).mem_iff).mp hbm)
            · exact hOK pg hin
          · exact hOK pg hmem
        have hlen2 : (if (pages.getD i dummyPage).boxes.length > 1 then
            setIdx i { pages.getD i dummyPage with
              boxes := sortByLess boxLess (pages.getD i dummyPage).boxes } pages
          else pages).length = pages.length := by
          split
          · exact setIdx_length _ i pages
          · rfl
        exact reflowSweep_noop c fuel (i + 1) _ hOK2 (by rw [hlen2]; omega)
      · exact ⟨rfl, hOK⟩

/-- Under the margin invariant the reflow iteration stops after one
sweep, preserving the invariant. -/
theorem reflowIter_inv (c : ReflowCtx) :
    ∀ (n : ℕ) (pages : List Page),
      (∀ pg ∈ pages, ∀ b ∈ pg.boxes, boxOK c.ph c.mTop c.mBot b) →
      ∀ pg ∈ reflowIter c n pages, ∀ b ∈ pg.boxes, boxOK c.ph c.mTop c.mBot b
  | 0, pages, hOK => hOK
  | n + 1, pages, hOK => by
      rw [reflowIter]
      have hs := reflowSweep_noop c (pages.length + 1003 * totalBoxCount pages + 1) 0
        pages hOK (by omega)
      rw [hs.1, if_neg Bool.false_ne_true]
      exact hs.2

theorem reflowByBottomThreshold_inv (ps : PageSize) (m : Margins) (pages : List Page)
    (hOK : ∀ pg ∈ pages, ∀ b ∈ pg.boxes, boxOK ps.height m.top m.bottom b) :
    ∀ pg ∈ reflowByBottomThreshold ps m pages, ∀ b ∈ pg.boxes,
      boxOK ps.height m.top m.bottom b := by
  rw [reflowByBottomThreshold]
  split
  · exact hOK
  · exact reflowIter_inv
      { pw := ps.width, ph := ps.height, mTop := m.top, mBot := m.bottom } 50 pages hOK

end GomPDF
